import Mathlib

/-!
Verification of libopenapi: low-level document construction and the what-changed
model.

A shallow embedding of

* `datamodel/low/3.0/create_document.go` (`CreateDocument` and the seven
  section-extraction tasks), namespace `Low`;
* `what-changed/model/info.go` and `what-changed/model/xml.go`
  (`CompareInfo`, `CompareXML` and their change counters), namespace `WhatChanged`.

Functions of other packages that these files call (`utils.FindKeyNodeFull`,
`low.BuildModel`, the per-type `Build` routines, `low.ExtractObject`,
`core.CheckProperties`, `CompareContact`, ...) are parameters of the embedding:
every general theorem holds for every behaviour of those callees.
-/

namespace LibOpenAPI

/-- A `yaml.Node`: kind, tag, scalar value, ordered children, line and column. -/
inductive Node where
  | mk (Kind : Nat) (Tag : String) (Value : String) (Content : List Node)
      (Line : Nat) (Column : Nat)

namespace Node

/-- Field `Tag` of a node. -/
def Tag : Node → String
  | .mk _ t _ _ _ _ => t

/-- Field `Value` of a node. -/
def Value : Node → String
  | .mk _ _ v _ _ _ => v

/-- Field `Content` of a node: its children in source order. -/
def Content : Node → List Node
  | .mk _ _ _ c _ _ => c

end Node

/-- A Go `error` value that is not nil, identified by its message. -/
abbrev Err := String

/-- Fatal runtime conditions (Go panics), a blocked wait, and the fault of an
access through a slice value that a data race left inconsistent. -/
inductive Fatal where
  | nilDereference
  | indexOutOfRange
  | deadlock
  | memoryFault
  deriving DecidableEq, Repr

/-- Dereference of a pointer: nil raises `nilDereference`. -/
def deref {α : Type} : Option α → Except Fatal α
  | some a => .ok a
  | none => .error Fatal.nilDereference

/-- Slice indexing `xs[i]`: out of range raises `indexOutOfRange`. -/
def index {α : Type} (xs : List α) (i : Nat) : Except Fatal α :=
  match xs.get? i with
  | some a => .ok a
  | none => .error Fatal.indexOutOfRange

/-- The generic `low.ValueReference[T]`: a value and the node it came from. -/
structure ValueReference (T : Type) where
  Value : T
  ValueNode : Option Node

/-- The generic `low.NodeReference[T]`: a value, its node and its key node. -/
structure NodeReference (T : Type) where
  Value : T
  ValueNode : Option Node
  KeyNode : Option Node

/-- The struct `datamodel.SpecInfo`, restricted to the fields `CreateDocument` reads. -/
structure SpecInfo where
  Version : String
  RootNode : Option Node

namespace Low

/-- The low-level model types of package v3 and the index type, declared outside
the embedded file. -/
structure ModelTypes where
  Info : Type
  Server : Type
  Tag : Type
  Paths : Type
  Components : Type
  SecurityRequirement : Type
  ExternalDoc : Type
  Extensions : Type
  SpecIndex : Type

/-- The struct `Document` of package v3. Pointer-typed and map-typed fields are
options (`none` is nil), slices are lists. -/
structure Document (M : ModelTypes) where
  Version : ValueReference String
  Info : NodeReference (Option M.Info)
  Servers : NodeReference (List (ValueReference (Option M.Server)))
  Paths : NodeReference (Option M.Paths)
  Components : NodeReference (Option M.Components)
  Security : NodeReference (Option M.SecurityRequirement)
  Tags : NodeReference (List (ValueReference (Option M.Tag)))
  ExternalDocs : NodeReference (Option M.ExternalDoc)
  Extensions : Option M.Extensions
  Index : Option M.SpecIndex

/-- The callees of `create_document.go` that live in other files. `BuildModel*` is
`low.BuildModel` at each model type (phase 1), `Build*` the per-type `Build`
method (phase 2); each takes the receiver and returns it together with the error.
`zero*` is the zero value `T{}`. No callee is handed the document, and the index
is only read once it is built, so each callee is a function of its arguments. -/
structure Helpers (M : ModelTypes) where
  NewSpecIndex : Option Node → M.SpecIndex
  ExtractExtensions : Node → M.Extensions
  FindKeyNodeFull : String → List Node → Option Node × Option Node × Option Node
  IsNodeArray : Node → Bool
  IsNodeMap : Node → Bool
  zeroInfo : M.Info
  BuildModelInfo : Node → M.Info → M.Info × Option Err
  BuildInfo : M.Info → Node → M.SpecIndex → M.Info × Option Err
  zeroComponents : M.Components
  BuildModelComponents : Node → M.Components → M.Components × Option Err
  BuildComponents : M.Components → Node → M.SpecIndex → M.Components × Option Err
  zeroServer : M.Server
  BuildModelServer : Node → M.Server → M.Server × Option Err
  BuildServer : M.Server → Node → M.SpecIndex → M.Server × Option Err
  zeroTag : M.Tag
  BuildModelTag : Node → M.Tag → M.Tag × Option Err
  BuildTag : M.Tag → Node → M.SpecIndex → M.Tag × Option Err
  zeroPaths : M.Paths
  BuildPaths : M.Paths → Node → M.SpecIndex → M.Paths × Option Err
  ExtractObjectSecurity : String → Option Node → M.SpecIndex →
    NodeReference (Option M.SecurityRequirement) × Option Err
  ExtractObjectExternalDoc : String → Option Node → M.SpecIndex →
    NodeReference (Option M.ExternalDoc) × Option Err

/-- Modelled from the spec: the constant `InfoLabel` is declared outside the embedded
file; it is the key of the section, `info`. -/
def InfoLabel : String := "info"
/-- Modelled from the spec: the constant `ServersLabel` is declared outside the embedded
file; it is the key of the section, `servers`. -/
def ServersLabel : String := "servers"
/-- Modelled from the spec: the constant `TagsLabel` is declared outside the embedded
file; it is the key of the section, `tags`. -/
def TagsLabel : String := "tags"
/-- Modelled from the spec: the constant `PathsLabel` is declared outside the embedded
file; it is the key of the section, `paths`. -/
def PathsLabel : String := "paths"
/-- Modelled from the spec: the constant `ComponentsLabel` is declared outside the embedded
file; it is the key of the section, `components`. -/
def ComponentsLabel : String := "components"
/-- Modelled from the spec: the constant `SecurityLabel` is declared outside the embedded
file; it is the key of the section, `security`. -/
def SecurityLabel : String := "security"
/-- Modelled from the spec: the constant `ExternalDocsLabel` is declared outside the embedded
file; it is the key of the section, `externalDocs`. -/
def ExternalDocsLabel : String := "externalDocs"

/-- The zero `Document{}`. -/
def Document.zero (M : ModelTypes) : Document M :=
  { Version := { Value := "", ValueNode := none }
    Info := { Value := none, ValueNode := none, KeyNode := none }
    Servers := { Value := [], ValueNode := none, KeyNode := none }
    Paths := { Value := none, ValueNode := none, KeyNode := none }
    Components := { Value := none, ValueNode := none, KeyNode := none }
    Security := { Value := none, ValueNode := none, KeyNode := none }
    Tags := { Value := [], ValueNode := none, KeyNode := none }
    ExternalDocs := { Value := none, ValueNode := none, KeyNode := none }
    Extensions := none
    Index := none }

/-- The type of a section-extraction task: it may update the document it is given
and returns a possibly nil error, unless it raises a fatal condition. -/
abbrev ExtractFn (M : ModelTypes) :=
  SpecInfo → Document M → M.SpecIndex → Except Fatal (Document M × Option Err)

variable {M : ModelTypes}

/-- Task `extractInfo`. -/
def extractInfo (H : Helpers M) : ExtractFn M := fun info doc idx => do
  let root ← deref info.RootNode
  let (_, ln, vn) := H.FindKeyNodeFull InfoLabel root.Content
  match vn with
  | some vn =>
    let ir := H.zeroInfo
    let (ir, err) := H.BuildModelInfo vn ir
    match err with
    | some e => pure (doc, some e)
    | none =>
      let (ir, _) := H.BuildInfo ir vn idx
      let nr : NodeReference (Option M.Info) :=
        { Value := some ir, ValueNode := some vn, KeyNode := ln }
      pure ({ doc with Info := nr }, none)
  | none => pure (doc, none)

/-- Task `extractSecurity`. -/
def extractSecurity (H : Helpers M) : ExtractFn M := fun info doc idx =>
  let (sec, sErr) := H.ExtractObjectSecurity SecurityLabel info.RootNode idx
  match sErr with
  | some e => pure (doc, some e)
  | none => pure ({ doc with Security := sec }, none)

/-- Task `extractExternalDocs`. -/
def extractExternalDocs (H : Helpers M) : ExtractFn M := fun info doc idx =>
  let (extDocs, dErr) := H.ExtractObjectExternalDoc ExternalDocsLabel info.RootNode idx
  match dErr with
  | some e => pure (doc, some e)
  | none => pure ({ doc with ExternalDocs := extDocs }, none)

/-- Task `extractComponents`. -/
def extractComponents (H : Helpers M) : ExtractFn M := fun info doc idx => do
  let root ← deref info.RootNode
  let (_, ln, vn) := H.FindKeyNodeFull ComponentsLabel root.Content
  match vn with
  | some vn =>
    let ir := H.zeroComponents
    let (ir, err) := H.BuildModelComponents vn ir
    match err with
    | some e => pure (doc, some e)
    | none =>
      let (ir, _) := H.BuildComponents ir vn idx
      let nr : NodeReference (Option M.Components) :=
        { Value := some ir, ValueNode := some vn, KeyNode := ln }
      pure ({ doc with Components := nr }, none)
  | none => pure (doc, none)

/-- The loop `for _, srvN := range vn.Content` of `extractServers`: `servers` is
the slice built so far; an error of `BuildModel` leaves the loop and the task. -/
def serversLoop (H : Helpers M) (idx : M.SpecIndex) :
    List Node → List (ValueReference (Option M.Server)) →
      Except Err (List (ValueReference (Option M.Server)))
  | [], servers => .ok servers
  | srvN :: rest, servers =>
    if H.IsNodeMap srvN then
      match H.BuildModelServer srvN H.zeroServer with
      | (_, some e) => .error e
      | (srvr, none) =>
        let srvr := (H.BuildServer srvr srvN idx).1
        serversLoop H idx rest (servers ++ [{ Value := some srvr, ValueNode := some srvN }])
    else serversLoop H idx rest servers

/-- Task `extractServers`. -/
def extractServers (H : Helpers M) : ExtractFn M := fun info doc idx => do
  let root ← deref info.RootNode
  let (_, ln, vn) := H.FindKeyNodeFull ServersLabel root.Content
  match vn with
  | some vn =>
    if H.IsNodeArray vn then
      match serversLoop H idx vn.Content [] with
      | .error e => pure (doc, some e)
      | .ok servers =>
        pure ({ doc with Servers := { Value := servers, KeyNode := ln, ValueNode := some vn } },
          none)
    else pure (doc, none)
  | none => pure (doc, none)

/-- The loop `for _, tagN := range vn.Content` of `extractTags`. -/
def tagsLoop (H : Helpers M) (idx : M.SpecIndex) :
    List Node → List (ValueReference (Option M.Tag)) →
      Except Err (List (ValueReference (Option M.Tag)))
  | [], tags => .ok tags
  | tagN :: rest, tags =>
    if H.IsNodeMap tagN then
      match H.BuildModelTag tagN H.zeroTag with
      | (_, some e) => .error e
      | (tag, none) =>
        let tag := (H.BuildTag tag tagN idx).1
        tagsLoop H idx rest (tags ++ [{ Value := some tag, ValueNode := some tagN }])
    else tagsLoop H idx rest tags

/-- Task `extractTags`. -/
def extractTags (H : Helpers M) : ExtractFn M := fun info doc idx => do
  let root ← deref info.RootNode
  let (_, ln, vn) := H.FindKeyNodeFull TagsLabel root.Content
  match vn with
  | some vn =>
    if H.IsNodeArray vn then
      match tagsLoop H idx vn.Content [] with
      | .error e => pure (doc, some e)
      | .ok tags =>
        pure ({ doc with Tags := { Value := tags, KeyNode := ln, ValueNode := some vn } }, none)
    else pure (doc, none)
  | none => pure (doc, none)

/-- Task `extractPaths`. -/
def extractPaths (H : Helpers M) : ExtractFn M := fun info doc idx => do
  let root ← deref info.RootNode
  let (_, ln, vn) := H.FindKeyNodeFull PathsLabel root.Content
  match vn with
  | some vn =>
    let ir := H.zeroPaths
    let (ir, err) := H.BuildPaths ir vn idx
    match err with
    | some e => pure (doc, some e)
    | none =>
      let nr : NodeReference (Option M.Paths) :=
        { Value := some ir, ValueNode := some vn, KeyNode := ln }
      pure ({ doc with Paths := nr }, none)
  | none => pure (doc, none)

/-- The slice `extractionFuncs`, in declaration order. -/
def extractionFuncs (H : Helpers M) : List (ExtractFn M) :=
  [extractInfo H, extractServers H, extractTags H, extractPaths H, extractComponents H,
    extractSecurity H, extractExternalDocs H]

/-- Where the goroutine of one worker stands in the closure `runExtraction`: before
the call of its task (`start`); after a task that returned the error `er` and before
the statement `*ers = append(*ers, er)` reads the slice (`failed`); or after that
read, holding the slice value `old` it read, and before it writes `append(old, er)`
back (`loaded`). -/
inductive Phase where
  | start
  | failed (er : Err)
  | loaded (er : Err) (old : List (Option Err))

/-- The goroutine has read the error slice and not yet written it back. -/
def Phase.isLoaded : Phase → Bool
  | .loaded _ _ => true
  | _ => false

/-- The goroutine has not called its task yet. -/
def Phase.isStart : Phase → Bool
  | .start => true
  | _ => false

/-- The number of steps a goroutine in this phase can still take. -/
def Phase.stepsLeft : Phase → Nat
  | .start => 3
  | .failed _ => 2
  | .loaded _ _ => 1

/-- A goroutine started by `go runExtraction(info, &doc, idx, f, &errors, &wg)`:
its task `f` and where it stands. -/
structure Worker (M : ModelTypes) where
  task : ExtractFn M
  phase : Phase

/-- What the goroutines share: the document `doc` and the error slice `errors`,
whose entries are error values that may be nil. Three fields only observe the run:
`raced` tells whether some goroutine read the error slice while another one had
read it and not yet written it back, `ran` lists the tasks in the order of their
calls and `done` the workers in the order of their `wg.Done()`. -/
structure Shared (M : ModelTypes) where
  doc : Document M
  ers : List (Option Err)
  raced : Bool
  ran : List (ExtractFn M)
  done : List (ExtractFn M)

/-- One step of the closure `runExtraction` in the goroutine of worker `w`, while
`others` are the goroutines that have not finished. The unlocked statement
`*ers = append(*ers, er)` is two steps, the read of the slice and the write of the
extended slice, so that another goroutine can run in between. The result is the
worker afterwards, `none` once it has called `wg.Done()`, and the shared state. -/
def runExtraction (info : SpecInfo) (idx : M.SpecIndex) (w : Worker M)
    (others : List (Worker M)) (s : Shared M) :
    Except Fatal (Option (Worker M) × Shared M) :=
  match w.phase with
  | .start => do
    let (doc, er) ← w.task info s.doc idx
    let s := { s with doc := doc, ran := s.ran ++ [w.task] }
    match er with
    | some e => pure (some { w with phase := .failed e }, s)
    | none => pure (none, { s with done := s.done ++ [w.task] })
  | .failed e =>
    pure (some { w with phase := .loaded e s.ers },
      { s with raced := s.raced || others.any fun o => o.phase.isLoaded })
  | .loaded e old =>
    pure (none, { s with ers := old ++ [some e], done := s.done ++ [w.task] })

/-- The goroutines started by the loop over `extractionFuncs`, followed by
`wg.Wait()`. `pending` are the goroutines that have not called `wg.Done()`; the
wait returns when none is left. At each step the scheduler lets one of them take
one step of `runExtraction`: `sched` is the sequence of its choices, the head
reduced modulo the number of pending goroutines (a missing choice is 0). `fuel`
bounds the number of steps; three per goroutine suffice. Nothing orders the
appends of two goroutines: when one reads the slice between the read and the
write of another, the write that comes last drops the entry written before it,
and `raced` records the overlap; what else such a race can do is the argument
`torn` of `CreateDocument`. -/
def wgWait (info : SpecInfo) (idx : M.SpecIndex) :
    Nat → List (Worker M) → List Nat → Shared M → Except Fatal (Shared M)
  | 0, [], _, s => pure s
  | 0, _ :: _, _, _ => .error Fatal.deadlock
  | _ + 1, [], _, s => pure s
  | fuel + 1, w0 :: ws, sched, s =>
    let i := sched.headD 0 % (w0 :: ws).length
    match (w0 :: ws).get? i with
    | none => .error Fatal.deadlock
    | some w => do
      let (w', s) ← runExtraction info idx w ((w0 :: ws).eraseIdx i) s
      match w' with
      | some w' => wgWait info idx fuel ((w0 :: ws).set i w') sched.tail s
      | none => wgWait info idx fuel ((w0 :: ws).eraseIdx i) sched.tail s

/-- The goroutines at the moment they are started. -/
def spawn (H : Helpers M) : List (Worker M) :=
  (extractionFuncs H).map fun f => { task := f, phase := Phase.start }

/-- The body of `CreateDocument` up to the return of `wg.Wait()`: the document with
version, index and extensions, then the seven goroutines under the schedule
`sched`. Returns what the goroutines share at that moment. -/
def runWorkers (H : Helpers M) (info : SpecInfo) (sched : List Nat) :
    Except Fatal (Shared M) := do
  let doc : Document M :=
    { Document.zero M with Version := { Value := info.Version, ValueNode := info.RootNode } }
  let idx := H.NewSpecIndex info.RootNode
  let doc := { doc with Index := some idx }
  let root ← deref info.RootNode
  let first ← index root.Content 0
  let doc := { doc with Extensions := some (H.ExtractExtensions first) }
  wgWait info idx (3 * (extractionFuncs H).length) (spawn H) sched
    { doc := doc, ers := [], raced := false, ran := [], done := [] }

/-- Function `CreateDocument`. The argument `sched` is the interleaving of the seven
goroutines. When the appends of two goroutines overlapped, the program has a data
race on the slice `errors`, a value of several machine words: the Go memory model
then allows inconsistent values and memory corruption. The argument `torn` is
what the race did: `none` when every read and write of the slice happened to be
whole (the slice is then what the interleaved reads and writes left, a later
write replacing entries it did not read), `some (.ok ers)` when the slice read
after `wg.Wait()` is `ers`, `some (.error f)` when the program stopped with the
fault `f`. Without overlap `torn` plays no part. Returns the document and the
error slice, or the fatal condition raised. -/
def CreateDocument (H : Helpers M) (info : SpecInfo) (sched : List Nat)
    (torn : Option (Except Fatal (List (Option Err)))) :
    Except Fatal (Document M × List (Option Err)) := do
  let s ← runWorkers H info sched
  if s.raced then
    match torn with
    | none => pure (s.doc, s.ers)
    | some (.ok ers) => pure (s.doc, ers)
    | some (.error f) => .error f
  else pure (s.doc, s.ers)

/-- Whether, under `sched`, the appends of two goroutines overlap. -/
def appendsOverlap (H : Helpers M) (info : SpecInfo) (sched : List Nat) : Bool :=
  match runWorkers H info sched with
  | .ok s => s.raced
  | .error _ => false

/-- The error slice of an outcome of `CreateDocument`, when it returned. -/
def errorsOf : Except Fatal (Document M × List (Option Err)) → Option (List (Option Err))
  | .ok (_, ers) => some ers
  | .error _ => none

/-- The document of an outcome of `CreateDocument`, when it returned. -/
def documentOf : Except Fatal (Document M × List (Option Err)) → Option (Document M)
  | .ok (doc, _) => some doc
  | .error _ => none

/-- The error a task returns for `info` and `idx` (nil when it raises a fatal
condition); by `task_settled` it does not depend on the document it is given. -/
def taskError (info : SpecInfo) (idx : M.SpecIndex) (f : ExtractFn M) : Option Err :=
  match f info (Document.zero M) idx with
  | .ok (_, e) => e
  | .error _ => none

/-- The error slice that holds the non-nil errors of the tasks of `fs`, in the
order of `fs`. -/
def errorsAlong (info : SpecInfo) (idx : M.SpecIndex) (fs : List (ExtractFn M)) :
    List (Option Err) :=
  (fs.filterMap (taskError info idx)).map some

/-- What holds at every moment of a run of the goroutines of the tasks `fs`: the
phase of a pending goroutine agrees with what its task returns; every goroutine is
either done or pending, and every task either called or still to be called; as
long as no appends overlapped, at most one goroutine is between its read and its
write of the error slice, what it read is the current slice, and the slice holds
the errors of the finished workers in the order in which they finished; and a run
with at most one failing task has no overlap. -/
def RunInvariant (info : SpecInfo) (idx : M.SpecIndex) (fs : List (ExtractFn M))
    (pending : List (Worker M)) (s : Shared M) : Prop :=
  (∀ w ∈ pending,
    (∀ e, w.phase = Phase.failed e → taskError info idx w.task = some e) ∧
    (∀ e old, w.phase = Phase.loaded e old → taskError info idx w.task = some e)) ∧
  (s.done ++ pending.map fun w => w.task).Perm fs ∧
  (s.ran ++ (pending.filter fun w => w.phase.isStart).map fun w => w.task).Perm fs ∧
  (s.raced = false →
    (pending.filter fun w => w.phase.isLoaded).length ≤ 1 ∧
    (∀ w ∈ pending, ∀ e old, w.phase = Phase.loaded e old → old = s.ers) ∧
    s.ers = errorsAlong info idx s.done) ∧
  ((fs.filterMap (taskError info idx)).length ≤ 1 → s.raced = false)

end Low

namespace WhatChanged

/-- Modelled from the spec: the change kinds of package core are declared outside
the embedded files, which use `ObjectAdded` and `ObjectRemoved`; the other kinds
are those of a property check. -/
inductive ChangeType where
  | Modified
  | PropertyAdded
  | ObjectAdded
  | ObjectRemoved
  | PropertyRemoved
  deriving DecidableEq, Repr

/-- The types of package base and of the sibling comparison files that
`info.go` and `xml.go` use without declaring them. -/
structure DiffTypes where
  Contact : Type
  License : Type
  Extensions : Type
  ContactChanges : Type
  LicenseChanges : Type
  ExtensionChanges : Type

/-- The struct `base.Info`. -/
structure Info (T : DiffTypes) where
  Title : NodeReference String
  Description : NodeReference String
  TermsOfService : NodeReference String
  Contact : NodeReference (Option T.Contact)
  License : NodeReference (Option T.License)
  Version : NodeReference String

/-- The struct `base.XML`. -/
structure XML (T : DiffTypes) where
  Name : NodeReference String
  Namespace : NodeReference String
  Prefix : NodeReference String
  Attribute : NodeReference Bool
  Wrapped : NodeReference Bool
  Extensions : T.Extensions

/-- A value of the interface type `any` as `CompareInfo` and `CompareXML` pass it:
the untyped nil, an Info or XML pointer, or a (possibly nil) Contact or License
pointer. -/
inductive Obj (T : DiffTypes) where
  | nil
  | info (i : Info T)
  | xml (x : XML T)
  | contact (c : Option T.Contact)
  | license (c : Option T.License)

/-- Modelled from the spec: `core.Change` is declared outside the embedded files.
A change is the record of what `core.CreateChange` is called with: kind, property
label, left and right node, breaking flag, original and new object. -/
structure Change (T : DiffTypes) where
  ChangeType : ChangeType
  Property : String
  LeftNode : Option Node
  RightNode : Option Node
  Breaking : Bool
  OriginalObject : Obj T
  NewObject : Obj T

/-- A `core.PropertyCheck`; its field `Changes` is the pointer to the one slice
`changes` of the calling function. -/
structure PropertyCheck (T : DiffTypes) where
  LeftNode : Option Node
  RightNode : Option Node
  Label : String
  Breaking : Bool
  Original : Obj T
  New : Obj T

/-- The callees of `info.go` and `xml.go` that live in other files.
`CheckProperties props` is the content of the slice `changes` after the call
(the slice is empty before it); the `*TotalChanges` are the methods
`TotalChanges` of the nested change sets, whose results are Go `int` values. -/
structure Callees (T : DiffTypes) where
  CheckProperties : List (PropertyCheck T) → List (Change T)
  CompareContact : T.Contact → T.Contact → Option T.ContactChanges
  ContactTotalChanges : T.ContactChanges → Int
  CompareLicense : T.License → T.License → Option T.LicenseChanges
  LicenseTotalChanges : T.LicenseChanges → Int
  CheckExtensions : XML T → XML T → Option T.ExtensionChanges
  ExtensionTotalChanges : T.ExtensionChanges → Int

/-- Modelled from the spec: the constant `v3.TitleLabel` is declared outside the
embedded files; it is the key of the property, `title`. -/
def TitleLabel : String := "title"
/-- Modelled from the spec: the constant `v3.DescriptionLabel` is declared outside the
embedded files; it is the key of the property, `description`. -/
def DescriptionLabel : String := "description"
/-- Modelled from the spec: the constant `v3.TermsOfServiceLabel` is declared outside the
embedded files; it is the key of the property, `termsOfService`. -/
def TermsOfServiceLabel : String := "termsOfService"
/-- Modelled from the spec: the constant `v3.VersionLabel` is declared outside the
embedded files; it is the key of the property, `version`. -/
def VersionLabel : String := "version"
/-- Modelled from the spec: the constant `v3.ContactLabel` is declared outside the
embedded files; it is the key of the property, `contact`. -/
def ContactLabel : String := "contact"
/-- Modelled from the spec: the constant `v3.LicenseLabel` is declared outside the
embedded files; it is the key of the property, `license`. -/
def LicenseLabel : String := "license"
variable {T : DiffTypes}

/-- Modelled from the spec: `core.CreateChange` is declared outside the embedded
files; it appends the change made of its arguments to the slice `changes`. -/
def CreateChange (changes : List (Change T)) (changeType : ChangeType) (property : String)
    (leftValueNode rightValueNode : Option Node) (breaking : Bool)
    (originalObject newObject : Obj T) : List (Change T) :=
  changes ++ [{ ChangeType := changeType, Property := property, LeftNode := leftValueNode,
                RightNode := rightValueNode, Breaking := breaking,
                OriginalObject := originalObject, NewObject := newObject }]

/-- The struct `core.PropertyChanges`. -/
structure PropertyChanges (T : DiffTypes) where
  Changes : List (Change T)

/-- The Go `int` (64 bits, two's complement) that an integer wraps to. -/
def wrapInt64 (x : Int) : Int :=
  (x + 9223372036854775808) % 18446744073709551616 - 9223372036854775808

/-- Modelled from the spec: the method `TotalChanges` of `core.PropertyChanges` is
declared outside the embedded files; it is the number of recorded changes, the
`len` of the slice. -/
def PropertyChanges.TotalChanges (p : PropertyChanges T) : Int :=
  wrapInt64 p.Changes.length

/-- The struct `InfoChanges`: embedded `core.PropertyChanges` and two nested
change sets that may be nil. -/
structure InfoChanges (T : DiffTypes) extends PropertyChanges T where
  ContactChanges : Option T.ContactChanges
  LicenseChanges : Option T.LicenseChanges

/-- Method `(*InfoChanges).TotalChanges`. The additions `t += ...` are additions of
Go `int` values and wrap. -/
def InfoChanges.TotalChanges (E : Callees T) (i : InfoChanges T) : Int :=
  let t := i.toPropertyChanges.TotalChanges
  let t := match i.ContactChanges with
    | some c => wrapInt64 (t + E.ContactTotalChanges c)
    | none => t
  let t := match i.LicenseChanges with
    | some c => wrapInt64 (t + E.LicenseTotalChanges c)
    | none => t
  t

/-- Method `(*InfoChanges).TotalBreakingChanges`. -/
def InfoChanges.TotalBreakingChanges (_i : InfoChanges T) : Int := 0

/-- The slice `props` that `CompareInfo` hands to `core.CheckProperties`. -/
def infoProps (l r : Info T) : List (PropertyCheck T) :=
  [ { LeftNode := l.Title.ValueNode, RightNode := r.Title.ValueNode, Label := TitleLabel,
      Breaking := false, Original := Obj.info l, New := Obj.info r },
    { LeftNode := l.Description.ValueNode, RightNode := r.Description.ValueNode,
      Label := DescriptionLabel, Breaking := false, Original := Obj.info l, New := Obj.info r },
    { LeftNode := l.TermsOfService.ValueNode, RightNode := r.TermsOfService.ValueNode,
      Label := TermsOfServiceLabel, Breaking := false, Original := Obj.info l,
      New := Obj.info r },
    { LeftNode := l.Version.ValueNode, RightNode := r.Version.ValueNode, Label := VersionLabel,
      Breaking := false, Original := Obj.info l, New := Obj.info r } ]

/-- The part of `CompareInfo` that compares the contact: the nested change set to
store in `ContactChanges` and the slice `changes` afterwards. -/
def compareContactPart (E : Callees T) (l r : Info T) (changes : List (Change T)) :
    Option T.ContactChanges × List (Change T) :=
  match l.Contact.Value, r.Contact.Value with
  | some lc, some rc => (E.CompareContact lc rc, changes)
  | none, some _ =>
    (none, CreateChange changes ChangeType.ObjectAdded ContactLabel
      none r.Contact.ValueNode false Obj.nil (Obj.contact r.Contact.Value))
  | some _, none =>
    (none, CreateChange changes ChangeType.ObjectRemoved ContactLabel
      l.Contact.ValueNode none false (Obj.contact l.Contact.Value) Obj.nil)
  | none, none => (none, changes)

/-- The part of `CompareInfo` that compares the license. -/
def compareLicensePart (E : Callees T) (l r : Info T) (changes : List (Change T)) :
    Option T.LicenseChanges × List (Change T) :=
  match l.License.Value, r.License.Value with
  | some ll, some rl => (E.CompareLicense ll rl, changes)
  | none, some _ =>
    (none, CreateChange changes ChangeType.ObjectAdded LicenseLabel
      none r.License.ValueNode false Obj.nil (Obj.license r.License.Value))
  | some _, none =>
    (none, CreateChange changes ChangeType.ObjectRemoved LicenseLabel
      l.License.ValueNode none false (Obj.license r.License.Value) Obj.nil)
  | none, none => (none, changes)

/-- The value `i` of `CompareInfo` just before its final test of `TotalChanges`. -/
def collectInfoChanges (E : Callees T) (l r : Info T) : InfoChanges T :=
  let changes := E.CheckProperties (infoProps l r)
  let (contactChanges, changes) := compareContactPart E l r changes
  let (licenseChanges, changes) := compareLicensePart E l r changes
  { Changes := changes, ContactChanges := contactChanges, LicenseChanges := licenseChanges }

/-- Function `CompareInfo`; `none` is the nil result. -/
def CompareInfo (E : Callees T) (l r : Info T) : Option (InfoChanges T) :=
  let i := collectInfoChanges E l r
  if i.TotalChanges E ≤ 0 then none else some i

/-- The struct `XMLChanges`. -/
structure XMLChanges (T : DiffTypes) extends PropertyChanges T where
  ExtensionChanges : Option T.ExtensionChanges

/-- Method `(*XMLChanges).TotalChanges`. The addition `c += ...` is an addition of
Go `int` values and wraps. -/
def XMLChanges.TotalChanges (E : Callees T) (x : XMLChanges T) : Int :=
  let c := x.toPropertyChanges.TotalChanges
  match x.ExtensionChanges with
  | some e => wrapInt64 (c + E.ExtensionTotalChanges e)
  | none => c

end WhatChanged

/-! ## Concrete callees and inputs

One concrete choice of the callees and a few concrete documents, on which the
definitions above can be evaluated. -/

namespace Examples

open Low WhatChanged

/-- A scalar string node. -/
def scalar (v : String) : Node := Node.mk 8 "!!str" v [] 1 1

/-- A mapping node with the given keys and values interleaved. -/
def mapping (kvs : List Node) : Node := Node.mk 4 "!!map" "" kvs 1 1

/-- A sequence node. -/
def sequence (items : List Node) : Node := Node.mk 2 "!!seq" "" items 1 1

/-- A document node around one root node. -/
def document (root : Node) : Node := Node.mk 1 "" "" [root] 1 1

/-- Model types for the examples: every built model is the text of what built it. -/
def M0 : ModelTypes :=
  { Info := String, Server := String, Tag := String, Paths := String, Components := String,
    SecurityRequirement := String, ExternalDoc := String, Extensions := Nat, SpecIndex := Nat }

/-- The value under `key` in the interleaved key and value list of a mapping. -/
def findInMapping (key : String) : List Node → Option (Node × Node)
  | k :: v :: rest => if k.Value == key then some (k, v) else findInMapping key rest
  | _ => none

/-- Key lookup of the examples: the key is searched in the children of the first
node of the list; the results are the mapping, the key node and the value node. -/
def findKey (key : String) (nodes : List Node) : Option Node × Option Node × Option Node :=
  match nodes with
  | m :: _ =>
    match findInMapping key m.Content with
    | some (k, v) => (some m, some k, some v)
    | none => (none, none, none)
  | [] => (none, none, none)

/-- Phase 1 of the examples fails on a node that has a child `!unsupported`. -/
def phase1Err (n : Node) : Option Err :=
  if n.Content.any (fun c => c.Value == "!unsupported") then
    some "unable to parse unsupported type"
  else none

/-- Phase 2 of the examples fails on a node that has a child `$ref`: the
reference dangles. The message starts with the name of the section. -/
def phase2Err (section_name : String) (n : Node) : Option Err :=
  if n.Content.any (fun c => c.Value == "$ref") then
    some (section_name ++ ": reference cannot be found")
  else none

/-- Object extraction of the examples: look the label up under the root's first
child and build it, failing on a dangling reference. -/
def extractObject (built : String) (label : String) (root : Option Node) :
    NodeReference (Option String) × Option Err :=
  match root with
  | none => ({ Value := none, ValueNode := none, KeyNode := none }, none)
  | some r =>
    match findKey label r.Content with
    | (_, ln, some vn) =>
      match phase2Err built vn with
      | some e => ({ Value := none, ValueNode := none, KeyNode := none }, some e)
      | none => ({ Value := some built, ValueNode := some vn, KeyNode := ln }, none)
    | _ => ({ Value := none, ValueNode := none, KeyNode := none }, none)

/-- The callees of the examples. -/
def H0 : Helpers M0 :=
  { NewSpecIndex := fun _ => (0 : Nat)
    ExtractExtensions := fun _ => (0 : Nat)
    FindKeyNodeFull := findKey
    IsNodeArray := fun n => n.Tag == "!!seq"
    IsNodeMap := fun n => n.Tag == "!!map"
    zeroInfo := ""
    BuildModelInfo := fun n _ => ("info", phase1Err n)
    BuildInfo := fun (ir : String) n _ => (ir ++ " built", phase2Err ir n)
    zeroComponents := ""
    BuildModelComponents := fun n _ => ("components", phase1Err n)
    BuildComponents := fun (ir : String) n _ => (ir ++ " built", phase2Err ir n)
    zeroServer := ""
    BuildModelServer := fun n _ => ("server", phase1Err n)
    BuildServer := fun (ir : String) n _ => (ir ++ " built", phase2Err ir n)
    zeroTag := ""
    BuildModelTag := fun n _ => ("tag", phase1Err n)
    BuildTag := fun (ir : String) n _ => (ir ++ " built", phase2Err ir n)
    zeroPaths := ""
    BuildPaths := fun _ n _ => ("paths built", phase2Err "paths" n)
    ExtractObjectSecurity := fun label root _ => extractObject "security" label root
    ExtractObjectExternalDoc := fun label root _ => extractObject "externalDocs" label root }

/-- A server entry `url: a`. -/
def serverA : Node := mapping [scalar "url", scalar "a"]

/-- A server entry that phase 1 rejects. -/
def serverBad : Node := mapping [scalar "url", scalar "!unsupported"]

/-- The `servers` sequence of `rootServersBad`. -/
def serversBadNode : Node := sequence [serverA, serverBad]

/-- The `paths` mapping of the examples. -/
def pathsNode : Node := mapping [scalar "/pet", mapping []]

/-- The `components` mapping of the examples. -/
def componentsNode : Node := mapping [scalar "schemas", mapping []]

/-- A root whose `servers` section is malformed while `info`, `paths` and
`components` are fine. -/
def rootServersBad : Node :=
  document (mapping [scalar "info", mapping [scalar "title", scalar "t"],
    scalar "servers", serversBadNode,
    scalar "paths", pathsNode,
    scalar "components", componentsNode])

/-- The SpecInfo of `rootServersBad`. -/
def infoServersBad : SpecInfo := { Version := "3.0.1", RootNode := some rootServersBad }

/-- A root whose `paths` and `security` sections both hold a dangling reference. -/
def rootTwoFailures : Node :=
  document (mapping [scalar "paths", mapping [scalar "$ref", scalar "#/nowhere"],
    scalar "security", mapping [scalar "$ref", scalar "#/nowhere"]])

/-- The SpecInfo of `rootTwoFailures`. -/
def infoTwoFailures : SpecInfo := { Version := "3.0.1", RootNode := some rootTwoFailures }

/-- The `info` mapping of `rootInfoDangling`: phase 1 accepts it, phase 2 finds a
dangling reference in it. -/
def infoDanglingNode : Node :=
  mapping [scalar "title", scalar "t", scalar "$ref", scalar "#/nowhere"]

/-- A root whose `info` section makes `Build` return an error. -/
def rootInfoDangling : Node := document (mapping [scalar "info", infoDanglingNode])

/-- The SpecInfo of `rootInfoDangling`. -/
def infoInfoDangling : SpecInfo := { Version := "3.0.1", RootNode := some rootInfoDangling }

/-- A root whose `components` section makes `Build` return an error. -/
def rootComponentsDangling : Node :=
  document (mapping [scalar "components", mapping [scalar "$ref", scalar "#/nowhere"]])

/-- The SpecInfo of `rootComponentsDangling`. -/
def infoComponentsDangling : SpecInfo :=
  { Version := "3.0.1", RootNode := some rootComponentsDangling }

/-- A SpecInfo whose root node has no children. -/
def infoEmptyRoot : SpecInfo := { Version := "", RootNode := some (Node.mk 1 "" "" [] 0 0) }

/-- A `servers` sequence with two mappings around a scalar. -/
def serversMixedNode : Node := sequence [serverA, scalar "stray", serverA]

/-- A `tags` sequence with one mapping after a scalar. -/
def tagsMixedNode : Node := sequence [scalar "stray", mapping [scalar "name", scalar "pet"]]

/-- A root with the two sequences above. -/
def rootSequences : Node :=
  document (mapping [scalar "servers", serversMixedNode, scalar "tags", tagsMixedNode])

/-- The SpecInfo of `rootSequences`. -/
def infoSequences : SpecInfo := { Version := "3.0.1", RootNode := some rootSequences }

/-- Types for the what-changed examples. -/
def T0 : DiffTypes :=
  { Contact := String, License := String, Extensions := List String,
    ContactChanges := Fin 4, LicenseChanges := Fin 3, ExtensionChanges := Fin 2 }

/-- The scalar value of an optional node, empty for nil. -/
def nodeValue : Option Node → String
  | some n => n.Value
  | none => ""

/-- The changes one property check records in the examples: removal, addition or
modification of the scalar value. -/
def checkProperty (p : PropertyCheck T0) : List (Change T0) :=
  let l := nodeValue p.LeftNode
  let r := nodeValue p.RightNode
  if l != "" && r == "" then
    CreateChange [] ChangeType.PropertyRemoved p.Label p.LeftNode p.RightNode p.Breaking
      p.Original p.New
  else if l == "" && r != "" then
    CreateChange [] ChangeType.PropertyAdded p.Label p.LeftNode p.RightNode p.Breaking
      p.Original p.New
  else if l != r then
    CreateChange [] ChangeType.Modified p.Label p.LeftNode p.RightNode p.Breaking
      p.Original p.New
  else []

/-- The callees of the what-changed examples. A nested change set is the number
of changes it counts. -/
def E0 : Callees T0 :=
  { CheckProperties := fun ps => ps.flatMap checkProperty
    CompareContact := fun (a b : String) => if a == b then none else some (1 : Fin 4)
    ContactTotalChanges := fun (n : Fin 4) => (n.val : Int)
    CompareLicense := fun (a b : String) => if a == b then none else some (1 : Fin 3)
    LicenseTotalChanges := fun (n : Fin 3) => (n.val : Int)
    CheckExtensions := fun l r =>
      let a : List String := l.Extensions
      let b : List String := r.Extensions
      if a == b then none else some (1 : Fin 2)
    ExtensionTotalChanges := fun (n : Fin 2) => (n.val : Int) }

/-- A string field without a node. -/
def noString : NodeReference String := { Value := "", ValueNode := none, KeyNode := none }

/-- A string field read from a scalar node. -/
def stringAt (v : String) : NodeReference String :=
  { Value := v, ValueNode := some (scalar v), KeyNode := some (scalar "key") }

/-- The node of the license of `infoWithLicense`. -/
def licenseNode : Node := mapping [scalar "name", scalar "MIT"]

/-- The node of the contact of `infoWithContact`. -/
def contactNode : Node := mapping [scalar "name", scalar "Ann"]

/-- An Info with title `api` and nothing else. -/
def infoPlain : Info T0 :=
  { Title := stringAt "api", Description := noString, TermsOfService := noString,
    Contact := { Value := none, ValueNode := none, KeyNode := none },
    License := { Value := none, ValueNode := none, KeyNode := none },
    Version := noString }

/-- The Info `infoPlain` with a license. -/
def infoWithLicense : Info T0 :=
  { infoPlain with
    License := { Value := some "MIT", ValueNode := some licenseNode, KeyNode := none } }

/-- The Info `infoPlain` with a contact. -/
def infoWithContact : Info T0 :=
  { infoPlain with
    Contact := { Value := some "Ann", ValueNode := some contactNode, KeyNode := none } }

/-- The Info `infoPlain` with another title. -/
def infoRetitled : Info T0 := { infoPlain with Title := stringAt "api v2" }

end Examples

/-! ## Theorems -/

namespace Low

variable {M : ModelTypes}

/-! ### The tasks -/

theorem extractInfo_shape (H : Helpers M) (info : SpecInfo) (idx : M.SpecIndex) (root : Node)
    (hroot : info.RootNode = some root) (d : Document M) :
    ∃ d', extractInfo H info d idx = .ok (d', taskError info idx (extractInfo H)) ∧
      d' = { d with Info := d'.Info } := by
  simp only [extractInfo, taskError, hroot, deref, bind, Except.bind, pure, Except.pure]
  split <;> split <;> simp_all

theorem extractServers_shape (H : Helpers M) (info : SpecInfo) (idx : M.SpecIndex)
    (root : Node) (hroot : info.RootNode = some root) (d : Document M) :
    ∃ d', extractServers H info d idx = .ok (d', taskError info idx (extractServers H)) ∧
      d' = { d with Servers := d'.Servers } := by
  simp only [extractServers, taskError, hroot, deref, bind, Except.bind, pure, Except.pure]
  split
  · split
    · split <;> simp_all
    · simp_all
  · simp_all

theorem extractTags_shape (H : Helpers M) (info : SpecInfo) (idx : M.SpecIndex)
    (root : Node) (hroot : info.RootNode = some root) (d : Document M) :
    ∃ d', extractTags H info d idx = .ok (d', taskError info idx (extractTags H)) ∧
      d' = { d with Tags := d'.Tags } := by
  simp only [extractTags, taskError, hroot, deref, bind, Except.bind, pure, Except.pure]
  split
  · split
    · split <;> simp_all
    · simp_all
  · simp_all

theorem extractPaths_shape (H : Helpers M) (info : SpecInfo) (idx : M.SpecIndex)
    (root : Node) (hroot : info.RootNode = some root) (d : Document M) :
    ∃ d', extractPaths H info d idx = .ok (d', taskError info idx (extractPaths H)) ∧
      d' = { d with Paths := d'.Paths } := by
  simp only [extractPaths, taskError, hroot, deref, bind, Except.bind, pure, Except.pure]
  split <;> split <;> simp_all

theorem extractComponents_shape (H : Helpers M) (info : SpecInfo) (idx : M.SpecIndex)
    (root : Node) (hroot : info.RootNode = some root) (d : Document M) :
    ∃ d', extractComponents H info d idx =
        .ok (d', taskError info idx (extractComponents H)) ∧
      d' = { d with Components := d'.Components } := by
  simp only [extractComponents, taskError, hroot, deref, bind, Except.bind, pure, Except.pure]
  split <;> split <;> simp_all

theorem extractSecurity_shape (H : Helpers M) (info : SpecInfo) (idx : M.SpecIndex)
    (d : Document M) :
    ∃ d', extractSecurity H info d idx = .ok (d', taskError info idx (extractSecurity H)) ∧
      d' = { d with Security := d'.Security } := by
  simp only [extractSecurity, taskError, pure, Except.pure]
  split <;> simp_all

theorem extractExternalDocs_shape (H : Helpers M) (info : SpecInfo) (idx : M.SpecIndex)
    (d : Document M) :
    ∃ d', extractExternalDocs H info d idx =
        .ok (d', taskError info idx (extractExternalDocs H)) ∧
      d' = { d with ExternalDocs := d'.ExternalDocs } := by
  simp only [extractExternalDocs, taskError, pure, Except.pure]
  split <;> simp_all

/-- Every one of the seven tasks returns for every document, with an error that
does not depend on the document, once the root node is not nil. -/
theorem task_settled (H : Helpers M) (info : SpecInfo) (idx : M.SpecIndex) (root : Node)
    (hroot : info.RootNode = some root) :
    ∀ f ∈ extractionFuncs H, ∀ d, ∃ d', f info d idx = .ok (d', taskError info idx f) := by
  intro f hf d
  simp only [extractionFuncs, List.mem_cons, List.mem_singleton, List.not_mem_nil,
    or_false] at hf
  rcases hf with h | h | h | h | h | h | h <;> subst h
  · exact (extractInfo_shape H info idx root hroot d).imp fun _ h => h.1
  · exact (extractServers_shape H info idx root hroot d).imp fun _ h => h.1
  · exact (extractTags_shape H info idx root hroot d).imp fun _ h => h.1
  · exact (extractPaths_shape H info idx root hroot d).imp fun _ h => h.1
  · exact (extractComponents_shape H info idx root hroot d).imp fun _ h => h.1
  · exact (extractSecurity_shape H info idx d).imp fun _ h => h.1
  · exact (extractExternalDocs_shape H info idx d).imp fun _ h => h.1

theorem extractInfo_frame (H : Helpers M) (info : SpecInfo) (doc : Document M)
    (idx : M.SpecIndex) :
    match extractInfo H info doc idx with
    | .ok (d, _) => d = { doc with Info := d.Info }
    | .error _ => info.RootNode = none := by
  cases hroot : info.RootNode with
  | none => simp [extractInfo, hroot, deref, bind, Except.bind]
  | some root =>
    obtain ⟨d', h, hf⟩ := extractInfo_shape H info idx root hroot doc
    rw [h]
    exact hf

theorem extractServers_frame (H : Helpers M) (info : SpecInfo) (doc : Document M)
    (idx : M.SpecIndex) :
    match extractServers H info doc idx with
    | .ok (d, _) => d = { doc with Servers := d.Servers }
    | .error _ => info.RootNode = none := by
  cases hroot : info.RootNode with
  | none => simp [extractServers, hroot, deref, bind, Except.bind]
  | some root =>
    obtain ⟨d', h, hf⟩ := extractServers_shape H info idx root hroot doc
    rw [h]
    exact hf

theorem extractTags_frame (H : Helpers M) (info : SpecInfo) (doc : Document M)
    (idx : M.SpecIndex) :
    match extractTags H info doc idx with
    | .ok (d, _) => d = { doc with Tags := d.Tags }
    | .error _ => info.RootNode = none := by
  cases hroot : info.RootNode with
  | none => simp [extractTags, hroot, deref, bind, Except.bind]
  | some root =>
    obtain ⟨d', h, hf⟩ := extractTags_shape H info idx root hroot doc
    rw [h]
    exact hf

theorem extractPaths_frame (H : Helpers M) (info : SpecInfo) (doc : Document M)
    (idx : M.SpecIndex) :
    match extractPaths H info doc idx with
    | .ok (d, _) => d = { doc with Paths := d.Paths }
    | .error _ => info.RootNode = none := by
  cases hroot : info.RootNode with
  | none => simp [extractPaths, hroot, deref, bind, Except.bind]
  | some root =>
    obtain ⟨d', h, hf⟩ := extractPaths_shape H info idx root hroot doc
    rw [h]
    exact hf

theorem extractComponents_frame (H : Helpers M) (info : SpecInfo) (doc : Document M)
    (idx : M.SpecIndex) :
    match extractComponents H info doc idx with
    | .ok (d, _) => d = { doc with Components := d.Components }
    | .error _ => info.RootNode = none := by
  cases hroot : info.RootNode with
  | none => simp [extractComponents, hroot, deref, bind, Except.bind]
  | some root =>
    obtain ⟨d', h, hf⟩ := extractComponents_shape H info idx root hroot doc
    rw [h]
    exact hf

theorem extractSecurity_frame (H : Helpers M) (info : SpecInfo) (doc : Document M)
    (idx : M.SpecIndex) :
    ∃ d e, extractSecurity H info doc idx = .ok (d, e) ∧
      d = { doc with Security := d.Security } :=
  (extractSecurity_shape H info idx doc).imp fun _ h => ⟨_, h⟩

theorem extractExternalDocs_frame (H : Helpers M) (info : SpecInfo) (doc : Document M)
    (idx : M.SpecIndex) :
    ∃ d e, extractExternalDocs H info doc idx = .ok (d, e) ∧
      d = { doc with ExternalDocs := d.ExternalDocs } :=
  (extractExternalDocs_shape H info idx doc).imp fun _ h => ⟨_, h⟩

/-- C5: each extraction task writes only its own section. Whatever the callees do,
whatever document and index it is given and whether it returns nil or an error,
`extractInfo` returns the given document with at most `Info` replaced,
`extractServers` with at most `Servers`, `extractTags` with at most `Tags`,
`extractPaths` with at most `Paths`, `extractComponents` with at most
`Components`, `extractSecurity` with at most `Security` and `extractExternalDocs`
with at most `ExternalDocs`; all other fields, `Version`, `Index` and `Extensions`
included, are those of the given document. The first five tasks return unless the
root node pointer is nil, the last two always return. -/
theorem extraction_tasks_write_only_their_section (H : Helpers M) (info : SpecInfo)
    (doc : Document M) (idx : M.SpecIndex) :
    (match extractInfo H info doc idx with
      | .ok (d, _) => d = { doc with Info := d.Info }
      | .error _ => info.RootNode = none) ∧
    (match extractServers H info doc idx with
      | .ok (d, _) => d = { doc with Servers := d.Servers }
      | .error _ => info.RootNode = none) ∧
    (match extractTags H info doc idx with
      | .ok (d, _) => d = { doc with Tags := d.Tags }
      | .error _ => info.RootNode = none) ∧
    (match extractPaths H info doc idx with
      | .ok (d, _) => d = { doc with Paths := d.Paths }
      | .error _ => info.RootNode = none) ∧
    (match extractComponents H info doc idx with
      | .ok (d, _) => d = { doc with Components := d.Components }
      | .error _ => info.RootNode = none) ∧
    (∃ d e, extractSecurity H info doc idx = .ok (d, e) ∧
      d = { doc with Security := d.Security }) ∧
    (∃ d e, extractExternalDocs H info doc idx = .ok (d, e) ∧
      d = { doc with ExternalDocs := d.ExternalDocs }) :=
  ⟨extractInfo_frame H info doc idx, extractServers_frame H info doc idx,
    extractTags_frame H info doc idx, extractPaths_frame H info doc idx,
    extractComponents_frame H info doc idx, extractSecurity_frame H info doc idx,
    extractExternalDocs_frame H info doc idx⟩

/-- What a task of `extractionFuncs` leaves alone: the three fields set before the
workers start, and the `Paths`, `Components`, `Servers` and `Tags` sections unless
the task is the one that owns them. -/
theorem task_keeps (H : Helpers M) (info : SpecInfo) (idx : M.SpecIndex) (root : Node)
    (hroot : info.RootNode = some root) :
    ∀ f ∈ extractionFuncs H, ∀ d d' e, f info d idx = .ok (d', e) →
      d'.Version = d.Version ∧ d'.Index = d.Index ∧ d'.Extensions = d.Extensions ∧
      (f = extractPaths H ∨ d'.Paths = d.Paths) ∧
      (f = extractComponents H ∨ d'.Components = d.Components) ∧
      (f = extractServers H ∨ d'.Servers = d.Servers) ∧
      (f = extractTags H ∨ d'.Tags = d.Tags) := by
  intro f hf d d' e hrun
  simp only [extractionFuncs, List.mem_cons, List.mem_singleton, List.not_mem_nil,
    or_false] at hf
  rcases hf with h | h | h | h | h | h | h <;> subst h
  · obtain ⟨d2, h2, hfr⟩ := extractInfo_shape H info idx root hroot d
    rw [h2] at hrun
    simp only [Except.ok.injEq, Prod.mk.injEq] at hrun
    rw [← hrun.1, hfr]
    simp
  · obtain ⟨d2, h2, hfr⟩ := extractServers_shape H info idx root hroot d
    rw [h2] at hrun
    simp only [Except.ok.injEq, Prod.mk.injEq] at hrun
    rw [← hrun.1, hfr]
    simp
  · obtain ⟨d2, h2, hfr⟩ := extractTags_shape H info idx root hroot d
    rw [h2] at hrun
    simp only [Except.ok.injEq, Prod.mk.injEq] at hrun
    rw [← hrun.1, hfr]
    simp
  · obtain ⟨d2, h2, hfr⟩ := extractPaths_shape H info idx root hroot d
    rw [h2] at hrun
    simp only [Except.ok.injEq, Prod.mk.injEq] at hrun
    rw [← hrun.1, hfr]
    simp
  · obtain ⟨d2, h2, hfr⟩ := extractComponents_shape H info idx root hroot d
    rw [h2] at hrun
    simp only [Except.ok.injEq, Prod.mk.injEq] at hrun
    rw [← hrun.1, hfr]
    simp
  · obtain ⟨d2, h2, hfr⟩ := extractSecurity_shape H info idx d
    rw [h2] at hrun
    simp only [Except.ok.injEq, Prod.mk.injEq] at hrun
    rw [← hrun.1, hfr]
    simp
  · obtain ⟨d2, h2, hfr⟩ := extractExternalDocs_shape H info idx d
    rw [h2] at hrun
    simp only [Except.ok.injEq, Prod.mk.injEq] at hrun
    rw [← hrun.1, hfr]
    simp

theorem extractPaths_populates (H : Helpers M) (info : SpecInfo) (idx : M.SpecIndex)
    (root : Node) (hroot : info.RootNode = some root) (kn ln : Option Node) (vn : Node)
    (hfind : H.FindKeyNodeFull PathsLabel root.Content = (kn, ln, some vn))
    (hnil : taskError info idx (extractPaths H) = none) :
    ∀ d d' e, extractPaths H info d idx = .ok (d', e) →
      d'.Paths = { Value := some (H.BuildPaths H.zeroPaths vn idx).1, ValueNode := some vn,
                   KeyNode := ln } := by
  intro d d' e hrun
  simp only [extractPaths, taskError, hroot, deref, bind, Except.bind, pure, Except.pure,
    hfind] at hrun hnil
  cases hb : (H.BuildPaths H.zeroPaths vn idx).2 with
  | some e' => simp [hb] at hnil
  | none =>
    simp only [hb, Except.ok.injEq, Prod.mk.injEq] at hrun
    rw [← hrun.1]

theorem extractComponents_populates (H : Helpers M) (info : SpecInfo) (idx : M.SpecIndex)
    (root : Node) (hroot : info.RootNode = some root) (kn ln : Option Node) (vn : Node)
    (hfind : H.FindKeyNodeFull ComponentsLabel root.Content = (kn, ln, some vn))
    (hnil : taskError info idx (extractComponents H) = none) :
    ∀ d d' e, extractComponents H info d idx = .ok (d', e) →
      d'.Components =
        { Value := some (H.BuildComponents
            (H.BuildModelComponents vn H.zeroComponents).1 vn idx).1,
          ValueNode := some vn, KeyNode := ln } := by
  intro d d' e hrun
  simp only [extractComponents, taskError, hroot, deref, bind, Except.bind, pure, Except.pure,
    hfind] at hrun hnil
  cases hb : (H.BuildModelComponents vn H.zeroComponents).2 with
  | some e' => simp [hb] at hnil
  | none =>
    simp only [hb, Except.ok.injEq, Prod.mk.injEq] at hrun
    rw [← hrun.1]

/-- The error of the phase-2 `Build` never reaches the result of `extractInfo` or
`extractComponents`: once the section is found and phase 1 succeeds, the task
attaches the section and returns nil, whatever `Build` returned. -/
theorem phase2_error_is_not_returned (H : Helpers M) (info : SpecInfo) (idx : M.SpecIndex)
    (root : Node) (hroot : info.RootNode = some root) (kn ln : Option Node) (vn : Node)
    (d : Document M) :
    (H.FindKeyNodeFull InfoLabel root.Content = (kn, ln, some vn) →
      (H.BuildModelInfo vn H.zeroInfo).2 = none →
      extractInfo H info d idx =
        .ok ({ d with
                Info := { Value := some (H.BuildInfo (H.BuildModelInfo vn H.zeroInfo).1
                            vn idx).1,
                          ValueNode := some vn, KeyNode := ln } }, none)) ∧
    (H.FindKeyNodeFull ComponentsLabel root.Content = (kn, ln, some vn) →
      (H.BuildModelComponents vn H.zeroComponents).2 = none →
      extractComponents H info d idx =
        .ok ({ d with
                Components :=
                  { Value := some (H.BuildComponents
                      (H.BuildModelComponents vn H.zeroComponents).1 vn idx).1,
                    ValueNode := some vn, KeyNode := ln } }, none)) := by
  constructor
  · intro hfind hb
    simp only [extractInfo, hroot, deref, bind, Except.bind, pure, Except.pure, hfind]
    split <;> simp_all
  · intro hfind hb
    simp only [extractComponents, hroot, deref, bind, Except.bind, pure, Except.pure, hfind]
    split <;> simp_all

/-! ### The `servers` and `tags` sequences -/

theorem serversLoop_ok (H : Helpers M) (idx : M.SpecIndex) :
    ∀ (l : List Node) (servers : List (ValueReference (Option M.Server))),
      (∀ c ∈ l, H.IsNodeMap c = true → (H.BuildModelServer c H.zeroServer).2 = none) →
      serversLoop H idx l servers =
        .ok (servers ++ (l.filter H.IsNodeMap).map fun c =>
          { Value := some (H.BuildServer (H.BuildModelServer c H.zeroServer).1 c idx).1,
            ValueNode := some c })
  | [], servers, _ => by simp [serversLoop]
  | c :: rest, servers, h => by
    have hrest : ∀ c' ∈ rest, H.IsNodeMap c' = true →
        (H.BuildModelServer c' H.zeroServer).2 = none :=
      fun c' hc' => h c' (List.mem_cons_of_mem _ hc')
    unfold serversLoop
    cases hm : H.IsNodeMap c with
    | false =>
      simp only [Bool.false_eq_true, if_false, List.filter_cons, hm]
      exact serversLoop_ok H idx rest servers hrest
    | true =>
      have hb := h c (List.mem_cons_self _ _) hm
      cases hp : H.BuildModelServer c H.zeroServer with
      | mk srvr err =>
        rw [hp] at hb
        simp only at hb
        subst hb
        simp only [if_true, List.filter_cons, hm, List.map_cons]
        rw [serversLoop_ok H idx rest _ hrest]
        simp [hp]

theorem tagsLoop_ok (H : Helpers M) (idx : M.SpecIndex) :
    ∀ (l : List Node) (tags : List (ValueReference (Option M.Tag))),
      (∀ c ∈ l, H.IsNodeMap c = true → (H.BuildModelTag c H.zeroTag).2 = none) →
      tagsLoop H idx l tags =
        .ok (tags ++ (l.filter H.IsNodeMap).map fun c =>
          { Value := some (H.BuildTag (H.BuildModelTag c H.zeroTag).1 c idx).1,
            ValueNode := some c })
  | [], tags, _ => by simp [tagsLoop]
  | c :: rest, tags, h => by
    have hrest : ∀ c' ∈ rest, H.IsNodeMap c' = true →
        (H.BuildModelTag c' H.zeroTag).2 = none :=
      fun c' hc' => h c' (List.mem_cons_of_mem _ hc')
    unfold tagsLoop
    cases hm : H.IsNodeMap c with
    | false =>
      simp only [Bool.false_eq_true, if_false, List.filter_cons, hm]
      exact tagsLoop_ok H idx rest tags hrest
    | true =>
      have hb := h c (List.mem_cons_self _ _) hm
      cases hp : H.BuildModelTag c H.zeroTag with
      | mk tag err =>
        rw [hp] at hb
        simp only at hb
        subst hb
        simp only [if_true, List.filter_cons, hm, List.map_cons]
        rw [tagsLoop_ok H idx rest _ hrest]
        simp [hp]

theorem extractServers_entries (H : Helpers M) (info : SpecInfo) (idx : M.SpecIndex)
    (root : Node) (hroot : info.RootNode = some root) (kn ln : Option Node) (vn : Node)
    (hfind : H.FindKeyNodeFull ServersLabel root.Content = (kn, ln, some vn))
    (harr : H.IsNodeArray vn = true)
    (hpass : ∀ c ∈ vn.Content, H.IsNodeMap c = true →
      (H.BuildModelServer c H.zeroServer).2 = none) (d : Document M) :
    extractServers H info d idx =
      .ok ({ d with
              Servers :=
                { Value := (vn.Content.filter H.IsNodeMap).map fun c =>
                    { Value := some
                        (H.BuildServer (H.BuildModelServer c H.zeroServer).1 c idx).1,
                      ValueNode := some c }
                  ValueNode := some vn
                  KeyNode := ln } }, none) := by
  simp only [extractServers, hroot, deref, bind, Except.bind, pure, Except.pure, hfind, harr,
    if_true, serversLoop_ok H idx vn.Content [] hpass, List.nil_append]

theorem extractTags_entries (H : Helpers M) (info : SpecInfo) (idx : M.SpecIndex)
    (root : Node) (hroot : info.RootNode = some root) (kn ln : Option Node) (vn : Node)
    (hfind : H.FindKeyNodeFull TagsLabel root.Content = (kn, ln, some vn))
    (harr : H.IsNodeArray vn = true)
    (hpass : ∀ c ∈ vn.Content, H.IsNodeMap c = true →
      (H.BuildModelTag c H.zeroTag).2 = none) (d : Document M) :
    extractTags H info d idx =
      .ok ({ d with
              Tags :=
                { Value := (vn.Content.filter H.IsNodeMap).map fun c =>
                    { Value := some (H.BuildTag (H.BuildModelTag c H.zeroTag).1 c idx).1,
                      ValueNode := some c }
                  ValueNode := some vn
                  KeyNode := ln } }, none) := by
  simp only [extractTags, hroot, deref, bind, Except.bind, pure, Except.pure, hfind, harr,
    if_true, tagsLoop_ok H idx vn.Content [] hpass, List.nil_append]

/-! ### The goroutines -/

theorem get?_split {α : Type} :
    ∀ (l : List α) (i : Nat) (w : α), l.get? i = some w →
      ∃ pre post, l = pre ++ w :: post ∧ l.eraseIdx i = pre ++ post ∧
        ∀ w', l.set i w' = pre ++ w' :: post
  | [], _, _, h => by simp at h
  | x :: xs, 0, w, h => by
    simp at h
    subst h
    exact ⟨[], xs, rfl, rfl, fun _ => rfl⟩
  | x :: xs, i + 1, w, h => by
    obtain ⟨pre, post, h1, h2, h3⟩ := get?_split xs i w (by simpa using h)
    refine ⟨x :: pre, post, ?_, ?_, ?_⟩
    · simp [h1]
    · simp [List.eraseIdx_cons_succ, h2]
    · intro w'
      simp [List.set_cons_succ, h3]

/-- A property of the pending goroutines and the shared state that every step of
`runExtraction` keeps holds when `wg.Wait()` returns. -/
theorem wgWait_invariant (info : SpecInfo) (idx : M.SpecIndex)
    (I : List (Worker M) → Shared M → Prop)
    (hkeep : ∀ pre w post s w' s', I (pre ++ w :: post) s →
      runExtraction info idx w (pre ++ post) s = .ok (some w', s') →
      I (pre ++ w' :: post) s')
    (hdone : ∀ pre w post s s', I (pre ++ w :: post) s →
      runExtraction info idx w (pre ++ post) s = .ok (none, s') →
      I (pre ++ post) s') :
    ∀ (fuel : Nat) (pending : List (Worker M)) (sched : List Nat) (s s' : Shared M),
      I pending s → wgWait info idx fuel pending sched s = .ok s' → I [] s'
  | 0, [], _, s, s', hI, h => by
    simp only [wgWait, pure, Except.pure, Except.ok.injEq] at h
    exact h ▸ hI
  | 0, _ :: _, _, _, _, _, h => by simp [wgWait] at h
  | _ + 1, [], _, s, s', hI, h => by
    simp only [wgWait, pure, Except.pure, Except.ok.injEq] at h
    exact h ▸ hI
  | fuel + 1, w0 :: ws, sched, s, s', hI, h => by
    cases hget : (w0 :: ws).get? (sched.headD 0 % (w0 :: ws).length) with
    | none =>
      rw [wgWait, hget] at h
      cases h
    | some w =>
      obtain ⟨pre, post, h1, h2, h3⟩ := get?_split _ _ w hget
      rw [wgWait, hget, h2] at h
      dsimp only at h
      rw [h1] at hI
      cases hrun : runExtraction info idx w (pre ++ post) s with
      | error e =>
        rw [hrun] at h
        cases h
      | ok p =>
        obtain ⟨w', s1⟩ := p
        rw [hrun] at h
        cases w' with
        | none =>
          dsimp only [bind, Except.bind] at h
          exact wgWait_invariant info idx I hkeep hdone fuel _ _ s1 s'
            (hdone pre w post s s1 hI hrun) h
        | some w1 =>
          dsimp only [bind, Except.bind] at h
          rw [h3] at h
          exact wgWait_invariant info idx I hkeep hdone fuel _ _ s1 s'
            (hkeep pre w post s w1 s1 hI hrun) h

/-- A step of a goroutine whose task returns is taken without a fatal condition
and leaves the goroutine with fewer steps to take. -/
theorem runExtraction_returns (info : SpecInfo) (idx : M.SpecIndex) (w : Worker M)
    (others : List (Worker M)) (s : Shared M)
    (hw : ∀ d, ∃ r, w.task info d idx = .ok r) :
    ∃ w' s', runExtraction info idx w others s = .ok (w', s') ∧
      match w' with
      | some w1 => w1.task = w.task ∧ w1.phase.stepsLeft < w.phase.stepsLeft
      | none => True := by
  obtain ⟨task, phase⟩ := w
  cases phase with
  | start =>
    obtain ⟨r, hr⟩ := hw s.doc
    obtain ⟨d', e⟩ := r
    simp only at hr
    cases e with
    | none =>
      refine ⟨none,
        { s with doc := d', ran := s.ran ++ [task], done := s.done ++ [task] }, ?_, trivial⟩
      simp only [runExtraction, hr, bind, Except.bind, pure, Except.pure]
    | some e =>
      refine ⟨some { task := task, phase := Phase.failed e },
        { s with doc := d', ran := s.ran ++ [task] }, ?_, rfl, ?_⟩
      · simp only [runExtraction, hr, bind, Except.bind, pure, Except.pure]
      · simp [Phase.stepsLeft]
  | failed e =>
    refine ⟨some { task := task, phase := Phase.loaded e s.ers },
      { s with raced := s.raced || others.any fun o => o.phase.isLoaded }, ?_, rfl, ?_⟩
    · simp only [runExtraction, pure, Except.pure]
    · simp [Phase.stepsLeft]
  | loaded e old =>
    refine ⟨none, { s with ers := old ++ [some e], done := s.done ++ [task] }, ?_, trivial⟩
    simp only [runExtraction, pure, Except.pure]

/-- With three steps of fuel for every goroutine that has not started, two for
one that is about to read the slice and one for one that is about to write it,
and tasks that return, `wg.Wait()` returns. -/
theorem wgWait_returns (info : SpecInfo) (idx : M.SpecIndex) :
    ∀ (fuel : Nat) (pending : List (Worker M)) (sched : List Nat) (s : Shared M),
      (∀ w ∈ pending, ∀ d, ∃ r, w.task info d idx = .ok r) →
      (pending.map fun w => w.phase.stepsLeft).sum ≤ fuel →
      ∃ s', wgWait info idx fuel pending sched s = .ok s'
  | 0, [], _, s, _, _ => ⟨s, rfl⟩
  | 0, w :: ws, _, _, _, hf => by
    have : 0 < w.phase.stepsLeft := by cases w.phase <;> simp [Phase.stepsLeft]
    simp only [List.map_cons, List.sum_cons] at hf
    omega
  | _ + 1, [], _, s, _, _ => ⟨s, rfl⟩
  | fuel + 1, w0 :: ws, sched, s, htot, hf => by
    have hlt : sched.headD 0 % (w0 :: ws).length < (w0 :: ws).length :=
      Nat.mod_lt _ (by simp)
    obtain ⟨w, hget⟩ : ∃ w, (w0 :: ws).get? (sched.headD 0 % (w0 :: ws).length) = some w := by
      cases hg : (w0 :: ws).get? (sched.headD 0 % (w0 :: ws).length) with
      | some w => exact ⟨w, rfl⟩
      | none =>
        rw [List.get?_eq_none] at hg
        omega
    obtain ⟨pre, post, h1, h2, h3⟩ := get?_split _ _ w hget
    rw [wgWait, hget, h2]
    dsimp only
    rw [h1] at htot hf
    have hpre : ∀ v ∈ pre, ∀ d, ∃ r, v.task info d idx = .ok r :=
      fun v hv => htot v (by simp [hv])
    have hpost : ∀ v ∈ post, ∀ d, ∃ r, v.task info d idx = .ok r :=
      fun v hv => htot v (by simp [hv])
    have hw : ∀ d, ∃ r, w.task info d idx = .ok r := htot w (by simp)
    simp only [List.map_append, List.map_cons, List.sum_append, List.sum_cons] at hf
    obtain ⟨w', s1, hrun, hprog⟩ := runExtraction_returns info idx w (pre ++ post) s hw
    rw [hrun]
    cases w' with
    | none =>
      dsimp only [bind, Except.bind]
      refine wgWait_returns info idx fuel (pre ++ post) _ _ ?_ ?_
      · intro v hv
        rcases List.mem_append.mp hv with h | h
        · exact hpre v h
        · exact hpost v h
      · have : 0 < w.phase.stepsLeft := by cases w.phase <;> simp [Phase.stepsLeft]
        simp only [List.map_append, List.sum_append]
        omega
    | some w1 =>
      dsimp only [bind, Except.bind]
      rw [h3]
      obtain ⟨ht, hlt1⟩ := hprog
      refine wgWait_returns info idx fuel _ _ _ ?_ ?_
      · intro v hv
        simp only [List.mem_append, List.mem_cons] at hv
        rcases hv with h | h | h
        · exact hpre v h
        · subst h
          rw [ht]
          exact hw
        · exact hpost v h
      · simp only [List.map_append, List.map_cons, List.sum_append, List.sum_cons]
        omega

theorem runExtraction_some_inv (info : SpecInfo) (idx : M.SpecIndex) (w w' : Worker M)
    (others : List (Worker M)) (s s' : Shared M)
    (h : runExtraction info idx w others s = .ok (some w', s')) :
    (w.phase = Phase.start ∧ ∃ d e, w.task info s.doc idx = .ok (d, some e) ∧
      w' = { task := w.task, phase := Phase.failed e } ∧
      s' = { s with doc := d, ran := s.ran ++ [w.task] }) ∨
    (∃ e, w.phase = Phase.failed e ∧
      w' = { task := w.task, phase := Phase.loaded e s.ers } ∧
      s' = { s with raced := s.raced || others.any fun o => o.phase.isLoaded }) := by
  obtain ⟨task, phase⟩ := w
  cases phase with
  | start =>
    left
    refine ⟨rfl, ?_⟩
    simp only [runExtraction, bind, Except.bind, pure, Except.pure] at h
    cases hr : task info s.doc idx with
    | error f => simp [hr] at h
    | ok p =>
      obtain ⟨d, e⟩ := p
      rw [hr] at h
      cases e with
      | none => simp at h
      | some e =>
        simp only [Except.ok.injEq, Prod.mk.injEq, Option.some.injEq] at h
        exact ⟨d, e, hr, h.1.symm, h.2.symm⟩
  | failed e =>
    right
    simp only [runExtraction, pure, Except.pure, Except.ok.injEq, Prod.mk.injEq,
      Option.some.injEq] at h
    exact ⟨e, rfl, h.1.symm, h.2.symm⟩
  | loaded e old =>
    simp [runExtraction, pure, Except.pure] at h

theorem runExtraction_none_inv (info : SpecInfo) (idx : M.SpecIndex) (w : Worker M)
    (others : List (Worker M)) (s s' : Shared M)
    (h : runExtraction info idx w others s = .ok (none, s')) :
    (w.phase = Phase.start ∧ ∃ d, w.task info s.doc idx = .ok (d, none) ∧
      s' = { s with doc := d, ran := s.ran ++ [w.task], done := s.done ++ [w.task] }) ∨
    (∃ e old, w.phase = Phase.loaded e old ∧
      s' = { s with ers := old ++ [some e], done := s.done ++ [w.task] }) := by
  obtain ⟨task, phase⟩ := w
  cases phase with
  | start =>
    left
    refine ⟨rfl, ?_⟩
    simp only [runExtraction, bind, Except.bind, pure, Except.pure] at h
    cases hr : task info s.doc idx with
    | error f => simp [hr] at h
    | ok p =>
      obtain ⟨d, e⟩ := p
      rw [hr] at h
      cases e with
      | some e => simp at h
      | none =>
        simp only [Except.ok.injEq, Prod.mk.injEq, true_and] at h
        exact ⟨d, hr, h.symm⟩
  | failed e =>
    simp [runExtraction, pure, Except.pure] at h
  | loaded e old =>
    right
    simp only [runExtraction, pure, Except.pure, Except.ok.injEq, Prod.mk.injEq,
      true_and] at h
    exact ⟨e, old, rfl, h.symm⟩

theorem perm_shift {α : Type} (xs p q : List α) (t : α) :
    (xs ++ [t] ++ (p ++ q)).Perm (xs ++ (p ++ t :: q)) := by
  rw [List.append_assoc]
  apply List.Perm.append_left
  have h : (p ++ t :: q).Perm (t :: (p ++ q)) := List.perm_middle
  simpa using h.symm

theorem errorsAlong_append (info : SpecInfo) (idx : M.SpecIndex) (a b : List (ExtractFn M)) :
    errorsAlong info idx (a ++ b) = errorsAlong info idx a ++ errorsAlong info idx b := by
  simp [errorsAlong]

theorem filterMap_length_pos (info : SpecInfo) (idx : M.SpecIndex) (l : List (Worker M))
    (o : Worker M) (e : Err) (ho : o ∈ l) (he : taskError info idx o.task = some e) :
    1 ≤ ((l.map fun w => w.task).filterMap (taskError info idx)).length := by
  have hmem : e ∈ (l.map fun w => w.task).filterMap (taskError info idx) :=
    List.mem_filterMap.mpr ⟨o.task, List.mem_map.mpr ⟨o, ho, rfl⟩, he⟩
  exact List.length_pos_of_mem hmem

theorem RunInvariant_keep (info : SpecInfo) (idx : M.SpecIndex) (fs : List (ExtractFn M))
    (hset : ∀ f ∈ fs, ∀ d, ∃ d', f info d idx = .ok (d', taskError info idx f))
    (pre : List (Worker M)) (w : Worker M) (post : List (Worker M)) (s : Shared M)
    (w' : Worker M) (s' : Shared M)
    (hI : RunInvariant info idx fs (pre ++ w :: post) s)
    (hrun : runExtraction info idx w (pre ++ post) s = .ok (some w', s')) :
    RunInvariant info idx fs (pre ++ w' :: post) s' := by
  obtain ⟨hA, hB, hC, hD, hE⟩ := hI
  have hwfs : w.task ∈ fs := hB.subset (by simp)
  rcases runExtraction_some_inv info idx w w' (pre ++ post) s s' hrun with
    ⟨hph, d, e, hr, hw', hs'⟩ | ⟨e, hph, hw', hs'⟩
  · -- the task was called and returned an error
    obtain ⟨d2, hd2⟩ := hset w.task hwfs s.doc
    rw [hr] at hd2
    simp only [Except.ok.injEq, Prod.mk.injEq] at hd2
    have herr : taskError info idx w.task = some e := hd2.2.symm
    subst hw' hs'
    refine ⟨?_, ?_, ?_, ?_, ?_⟩
    · intro v hv
      simp only [List.mem_append, List.mem_cons] at hv
      rcases hv with h | h | h
      · exact hA v (by simp [h])
      · subst h
        exact ⟨fun e' he' => (by cases he'; exact herr), fun e' old he' => by cases he'⟩
      · exact hA v (by simp [h])
    · simpa using hB
    · have hshift := perm_shift s.ran
        ((pre.filter fun w => w.phase.isStart).map fun w => w.task)
        ((post.filter fun w => w.phase.isStart).map fun w => w.task) w.task
      have hC' : (s.ran ++ (((pre.filter fun w => w.phase.isStart).map fun w => w.task) ++
          w.task :: ((post.filter fun w => w.phase.isStart).map fun w => w.task))).Perm fs := by
        simpa [List.filter_append, List.filter_cons, hph, Phase.isStart] using hC
      simpa [List.filter_append, List.filter_cons, Phase.isStart] using hshift.trans hC'
    · intro hr'
      obtain ⟨h1, h2, h3⟩ := hD hr'
      refine ⟨?_, ?_, h3⟩
      · simpa [List.filter_append, List.filter_cons, hph, Phase.isLoaded] using h1
      · intro v hv e' old hv'
        simp only [List.mem_append, List.mem_cons] at hv
        rcases hv with h | h | h
        · exact h2 v (by simp [h]) e' old hv'
        · subst h
          cases hv'
        · exact h2 v (by simp [h]) e' old hv'
    · exact hE
  · -- the goroutine read the error slice
    have herr : taskError info idx w.task = some e := (hA w (by simp)).1 e hph
    subst hw' hs'
    refine ⟨?_, ?_, ?_, ?_, ?_⟩
    · intro v hv
      simp only [List.mem_append, List.mem_cons] at hv
      rcases hv with h | h | h
      · exact hA v (by simp [h])
      · subst h
        exact ⟨fun e' he' => (by cases he'), fun e' old he' => (by cases he'; exact herr)⟩
      · exact hA v (by simp [h])
    · simpa using hB
    · simpa [List.filter_append, List.filter_cons, hph, Phase.isStart] using hC
    · intro hr'
      simp only [Bool.or_eq_false_iff, List.any_eq_false] at hr'
      obtain ⟨hr1, hr2⟩ := hr'
      obtain ⟨h1, h2, h3⟩ := hD hr1
      have hpre : (pre.filter fun w => w.phase.isLoaded) = [] :=
        List.filter_eq_nil_iff.mpr fun v hv => hr2 v (by simp [hv])
      have hpost : (post.filter fun w => w.phase.isLoaded) = [] :=
        List.filter_eq_nil_iff.mpr fun v hv => hr2 v (by simp [hv])
      refine ⟨?_, ?_, h3⟩
      · simp only [List.filter_append, List.filter_cons, hpre, hpost]
        simp [Phase.isLoaded]
      · intro v hv e' old hv'
        simp only [List.mem_append, List.mem_cons] at hv
        rcases hv with h | h | h
        · exact absurd (by rw [hv']; rfl) (hr2 v (by simp [h]))
        · subst h
          cases hv'
          rfl
        · exact absurd (by rw [hv']; rfl) (hr2 v (by simp [h]))
    · intro hle
      have hr1 := hE hle
      simp only [Bool.or_eq_false_iff, List.any_eq_false]
      refine ⟨hr1, ?_⟩
      intro o ho hol
      have hoerr : ∃ e', taskError info idx o.task = some e' := by
        cases hop : o.phase with
        | start => rw [hop] at hol; simp [Phase.isLoaded] at hol
        | failed e' => rw [hop] at hol; simp [Phase.isLoaded] at hol
        | loaded e' old =>
          exact ⟨e', (hA o (by
            simp only [List.mem_append, List.mem_cons]
            rcases List.mem_append.mp ho with h | h
            · exact Or.inl h
            · exact Or.inr (Or.inr h))).2 e' old hop⟩
      obtain ⟨e', he'⟩ := hoerr
      have hlen := hB.filterMap (taskError info idx) |>.length_eq
      simp only [List.filterMap_append, List.map_append, List.map_cons, List.filterMap_cons,
        herr, List.length_append, List.length_cons] at hlen
      rcases List.mem_append.mp ho with h | h
      · have := filterMap_length_pos info idx pre o e' h he'
        omega
      · have := filterMap_length_pos info idx post o e' h he'
        omega

theorem RunInvariant_done (info : SpecInfo) (idx : M.SpecIndex) (fs : List (ExtractFn M))
    (hset : ∀ f ∈ fs, ∀ d, ∃ d', f info d idx = .ok (d', taskError info idx f))
    (pre : List (Worker M)) (w : Worker M) (post : List (Worker M)) (s s' : Shared M)
    (hI : RunInvariant info idx fs (pre ++ w :: post) s)
    (hrun : runExtraction info idx w (pre ++ post) s = .ok (none, s')) :
    RunInvariant info idx fs (pre ++ post) s' := by
  obtain ⟨hA, hB, hC, hD, hE⟩ := hI
  have hwfs : w.task ∈ fs := hB.subset (by simp)
  have hA' : ∀ v ∈ pre ++ post,
      (∀ e, v.phase = Phase.failed e → taskError info idx v.task = some e) ∧
      (∀ e old, v.phase = Phase.loaded e old → taskError info idx v.task = some e) := by
    intro v hv
    rcases List.mem_append.mp hv with h | h
    · exact hA v (by simp [h])
    · exact hA v (by simp [h])
  have hB' : (s.done ++ [w.task] ++ (pre ++ post).map fun w => w.task).Perm fs := by
    have hshift := perm_shift s.done (pre.map fun w => w.task) (post.map fun w => w.task)
      w.task
    have : (s.done ++ ((pre.map fun w => w.task) ++
        w.task :: (post.map fun w => w.task))).Perm fs := by simpa using hB
    simpa using hshift.trans this
  rcases runExtraction_none_inv info idx w (pre ++ post) s s' hrun with
    ⟨hph, d, hr, hs'⟩ | ⟨e, old, hph, hs'⟩
  · -- the task was called and returned nil
    obtain ⟨d2, hd2⟩ := hset w.task hwfs s.doc
    rw [hr] at hd2
    simp only [Except.ok.injEq, Prod.mk.injEq] at hd2
    have herr : taskError info idx w.task = none := hd2.2.symm
    subst hs'
    refine ⟨hA', hB', ?_, ?_, hE⟩
    · have hshift := perm_shift s.ran
        ((pre.filter fun w => w.phase.isStart).map fun w => w.task)
        ((post.filter fun w => w.phase.isStart).map fun w => w.task) w.task
      have hC' : (s.ran ++ (((pre.filter fun w => w.phase.isStart).map fun w => w.task) ++
          w.task :: ((post.filter fun w => w.phase.isStart).map fun w => w.task))).Perm fs := by
        simpa [List.filter_append, List.filter_cons, hph, Phase.isStart] using hC
      simpa [List.filter_append] using hshift.trans hC'
    · intro hr'
      obtain ⟨h1, h2, h3⟩ := hD hr'
      refine ⟨?_, ?_, ?_⟩
      · simpa [List.filter_append, List.filter_cons, hph, Phase.isLoaded] using h1
      · intro v hv e' old hv'
        rcases List.mem_append.mp hv with h | h
        · exact h2 v (by simp [h]) e' old hv'
        · exact h2 v (by simp [h]) e' old hv'
      · show s.ers = errorsAlong info idx (s.done ++ [w.task])
        rw [errorsAlong_append, ← h3]
        simp [errorsAlong, herr]
  · -- the goroutine wrote the extended slice back
    have herr : taskError info idx w.task = some e := (hA w (by simp)).2 e old hph
    subst hs'
    refine ⟨hA', hB', ?_, ?_, hE⟩
    · simpa [List.filter_append, List.filter_cons, hph, Phase.isStart] using hC
    · intro hr'
      obtain ⟨h1, h2, h3⟩ := hD hr'
      have hold : old = s.ers := h2 w (by simp) e old hph
      have hlen : (pre.filter fun w => w.phase.isLoaded).length +
          ((post.filter fun w => w.phase.isLoaded).length + 1) ≤ 1 := by
        have hw : w.phase.isLoaded = true := by rw [hph]; rfl
        simpa [List.filter_append, List.filter_cons, hw] using h1
      have hpre : (pre.filter fun w => w.phase.isLoaded) = [] :=
        List.length_eq_zero.mp (by omega)
      have hpost : (post.filter fun w => w.phase.isLoaded) = [] :=
        List.length_eq_zero.mp (by omega)
      refine ⟨?_, ?_, ?_⟩
      · simp [List.filter_append, hpre, hpost]
      · intro v hv e' old' hv'
        have hvl : v.phase.isLoaded = true := by rw [hv']; rfl
        rcases List.mem_append.mp hv with h | h
        · have : v ∈ pre.filter fun w => w.phase.isLoaded := List.mem_filter.mpr ⟨h, hvl⟩
          rw [hpre] at this
          cases this
        · have : v ∈ post.filter fun w => w.phase.isLoaded := List.mem_filter.mpr ⟨h, hvl⟩
          rw [hpost] at this
          cases this
      · show old ++ [some e] = errorsAlong info idx (s.done ++ [w.task])
        rw [errorsAlong_append, ← h3, hold]
        simp [errorsAlong, herr]

/-- The run of the goroutines keeps `RunInvariant`. -/
theorem wgWait_RunInvariant (info : SpecInfo) (idx : M.SpecIndex) (fs : List (ExtractFn M))
    (hset : ∀ f ∈ fs, ∀ d, ∃ d', f info d idx = .ok (d', taskError info idx f))
    (fuel : Nat) (pending : List (Worker M)) (sched : List Nat) (s s' : Shared M)
    (hI : RunInvariant info idx fs pending s)
    (hrun : wgWait info idx fuel pending sched s = .ok s') :
    RunInvariant info idx fs [] s' :=
  wgWait_invariant info idx (RunInvariant info idx fs)
    (fun pre w post s w' s' => RunInvariant_keep info idx fs hset pre w post s w' s')
    (fun pre w post s s' => RunInvariant_done info idx fs hset pre w post s s')
    fuel pending sched s s' hI hrun

/-- A property of the document that every task keeps, and that holds at the start
or is established by a task still to be called, holds when `wg.Wait()` returns. -/
theorem wgWait_establishes (info : SpecInfo) (idx : M.SpecIndex) (P : Document M → Prop)
    (fuel : Nat) (pending : List (Worker M)) (sched : List Nat) (s s' : Shared M)
    (hkeep : ∀ w ∈ pending, ∀ d d' e, w.task info d idx = .ok (d', e) → P d → P d')
    (hstart : P s.doc ∨ ∃ w ∈ pending, w.phase = Phase.start ∧
      ∀ d d' e, w.task info d idx = .ok (d', e) → P d')
    (hrun : wgWait info idx fuel pending sched s = .ok s') : P s'.doc := by
  have hfin := wgWait_invariant info idx
    (fun pending s =>
      (∀ w ∈ pending, ∀ d d' e, w.task info d idx = .ok (d', e) → P d → P d') ∧
      (P s.doc ∨ ∃ w ∈ pending, w.phase = Phase.start ∧
        ∀ d d' e, w.task info d idx = .ok (d', e) → P d'))
    ?_ ?_ fuel pending sched s s' ⟨hkeep, hstart⟩ hrun
  · rcases hfin.2 with h | ⟨w, hw, _⟩
    · exact h
    · cases hw
  · intro pre w post s w' s' hI hstep
    obtain ⟨hk, hs⟩ := hI
    rcases runExtraction_some_inv info idx w w' (pre ++ post) s s' hstep with
      ⟨hph, d, e, hr, hw', hs'⟩ | ⟨e, hph, hw', hs'⟩
    · subst hw' hs'
      refine ⟨?_, ?_⟩
      · intro v hv
        simp only [List.mem_append, List.mem_cons] at hv
        rcases hv with h | h | h
        · exact hk v (by simp [h])
        · subst h
          exact hk w (by simp)
        · exact hk v (by simp [h])
      · rcases hs with h | ⟨v, hv, hvs, hest⟩
        · exact Or.inl (hk w (by simp) s.doc d (some e) hr h)
        · simp only [List.mem_append, List.mem_cons] at hv
          rcases hv with h | h | h
          · exact Or.inr ⟨v, by simp [h], hvs, hest⟩
          · subst h
            exact Or.inl (hest s.doc d (some e) hr)
          · exact Or.inr ⟨v, by simp [h], hvs, hest⟩
    · subst hw' hs'
      refine ⟨?_, ?_⟩
      · intro v hv
        simp only [List.mem_append, List.mem_cons] at hv
        rcases hv with h | h | h
        · exact hk v (by simp [h])
        · subst h
          exact hk w (by simp)
        · exact hk v (by simp [h])
      · rcases hs with h | ⟨v, hv, hvs, hest⟩
        · exact Or.inl h
        · simp only [List.mem_append, List.mem_cons] at hv
          rcases hv with h | h | h
          · exact Or.inr ⟨v, by simp [h], hvs, hest⟩
          · subst h
            rw [hph] at hvs
            cases hvs
          · exact Or.inr ⟨v, by simp [h], hvs, hest⟩
  · intro pre w post s s' hI hstep
    obtain ⟨hk, hs⟩ := hI
    have hk' : ∀ v ∈ pre ++ post, ∀ d d' e, v.task info d idx = .ok (d', e) → P d → P d' := by
      intro v hv
      rcases List.mem_append.mp hv with h | h
      · exact hk v (by simp [h])
      · exact hk v (by simp [h])
    rcases runExtraction_none_inv info idx w (pre ++ post) s s' hstep with
      ⟨hph, d, hr, hs'⟩ | ⟨e, old, hph, hs'⟩
    · subst hs'
      refine ⟨hk', ?_⟩
      rcases hs with h | ⟨v, hv, hvs, hest⟩
      · exact Or.inl (hk w (by simp) s.doc d none hr h)
      · simp only [List.mem_append, List.mem_cons] at hv
        rcases hv with h | h | h
        · exact Or.inr ⟨v, by simp [h], hvs, hest⟩
        · subst h
          exact Or.inl (hest s.doc d none hr)
        · exact Or.inr ⟨v, by simp [h], hvs, hest⟩
    · subst hs'
      refine ⟨hk', ?_⟩
      rcases hs with h | ⟨v, hv, hvs, hest⟩
      · exact Or.inl h
      · simp only [List.mem_append, List.mem_cons] at hv
        rcases hv with h | h | h
        · exact Or.inr ⟨v, by simp [h], hvs, hest⟩
        · subst h
          rw [hph] at hvs
          cases hvs
        · exact Or.inr ⟨v, by simp [h], hvs, hest⟩

/-! ### `CreateDocument` -/

theorem runWorkers_eq (H : Helpers M) (info : SpecInfo) (root first : Node)
    (rest : List Node) (sched : List Nat) (hroot : info.RootNode = some root)
    (hc : root.Content = first :: rest) :
    runWorkers H info sched =
      wgWait info (H.NewSpecIndex info.RootNode) 21 (spawn H) sched
        { doc := { Document.zero M with
                    Version := { Value := info.Version, ValueNode := info.RootNode }
                    Index := some (H.NewSpecIndex info.RootNode)
                    Extensions := some (H.ExtractExtensions first) }
          ers := [], raced := false, ran := [], done := [] } := by
  have hlen : 3 * (extractionFuncs H).length = 21 := rfl
  simp only [runWorkers, hroot, deref, index, hc, List.get?_cons_zero, bind, Except.bind,
    hlen]

theorem RunInvariant_spawn (H : Helpers M) (info : SpecInfo) (idx : M.SpecIndex)
    (doc : Document M) :
    RunInvariant info idx (extractionFuncs H) (spawn H)
      { doc := doc, ers := [], raced := false, ran := [], done := [] } := by
  refine ⟨?_, ?_, ?_, ?_, fun _ => rfl⟩
  · intro w hw
    simp only [spawn, List.mem_map] at hw
    obtain ⟨f, _, hf⟩ := hw
    subst hf
    exact ⟨fun e he => (by cases he), fun e old he => (by cases he)⟩
  · simp [spawn, extractionFuncs]
  · simp [spawn, extractionFuncs, Phase.isStart]
  · intro _
    refine ⟨?_, ?_, rfl⟩
    · simp [spawn, extractionFuncs, Phase.isLoaded]
    · intro w hw e old he
      simp only [spawn, List.mem_map] at hw
      obtain ⟨f, _, hf⟩ := hw
      subst hf
      cases he

/-- What the goroutines leave when `wg.Wait()` returns, for a root node that is not
nil and has a child: every task was called once and every worker finished once;
without overlapping appends the error slice holds the errors of the workers in
the order in which they finished; a run with at most one failing task has no
overlap; version, index and extensions are as set before the workers started; and
the sections `Paths`, `Components`, `Servers` and `Tags` are what their tasks
build. -/
theorem runWorkers_facts (H : Helpers M) (info : SpecInfo) (root : Node) (sched : List Nat)
    (hroot : info.RootNode = some root) (hne : root.Content ≠ []) :
    ∃ s, runWorkers H info sched = .ok s ∧
      s.ran.Perm (extractionFuncs H) ∧
      s.done.Perm (extractionFuncs H) ∧
      (s.raced = false → s.ers = errorsAlong info (H.NewSpecIndex info.RootNode) s.done) ∧
      (((extractionFuncs H).filterMap
          (taskError info (H.NewSpecIndex info.RootNode))).length ≤ 1 → s.raced = false) ∧
      s.doc.Version = { Value := info.Version, ValueNode := info.RootNode } ∧
      s.doc.Index = some (H.NewSpecIndex info.RootNode) ∧
      s.doc.Extensions = root.Content.head?.map H.ExtractExtensions ∧
      (∀ kn ln vn, H.FindKeyNodeFull PathsLabel root.Content = (kn, ln, some vn) →
        taskError info (H.NewSpecIndex info.RootNode) (extractPaths H) = none →
        s.doc.Paths =
          { Value := some (H.BuildPaths H.zeroPaths vn (H.NewSpecIndex info.RootNode)).1,
            ValueNode := some vn, KeyNode := ln }) ∧
      (∀ kn ln vn, H.FindKeyNodeFull ComponentsLabel root.Content = (kn, ln, some vn) →
        taskError info (H.NewSpecIndex info.RootNode) (extractComponents H) = none →
        s.doc.Components =
          { Value := some (H.BuildComponents (H.BuildModelComponents vn H.zeroComponents).1 vn
              (H.NewSpecIndex info.RootNode)).1,
            ValueNode := some vn, KeyNode := ln }) ∧
      (∀ kn ln vn, H.FindKeyNodeFull ServersLabel root.Content = (kn, ln, some vn) →
        H.IsNodeArray vn = true →
        (∀ c ∈ vn.Content, H.IsNodeMap c = true →
          (H.BuildModelServer c H.zeroServer).2 = none) →
        s.doc.Servers =
          { Value := (vn.Content.filter H.IsNodeMap).map fun c =>
              { Value := some (H.BuildServer (H.BuildModelServer c H.zeroServer).1 c
                  (H.NewSpecIndex info.RootNode)).1,
                ValueNode := some c }
            ValueNode := some vn
            KeyNode := ln }) ∧
      (∀ kn ln vn, H.FindKeyNodeFull TagsLabel root.Content = (kn, ln, some vn) →
        H.IsNodeArray vn = true →
        (∀ c ∈ vn.Content, H.IsNodeMap c = true →
          (H.BuildModelTag c H.zeroTag).2 = none) →
        s.doc.Tags =
          { Value := (vn.Content.filter H.IsNodeMap).map fun c =>
              { Value := some (H.BuildTag (H.BuildModelTag c H.zeroTag).1 c
                  (H.NewSpecIndex info.RootNode)).1,
                ValueNode := some c }
            ValueNode := some vn
            KeyNode := ln }) := by
  obtain ⟨first, rest, hc⟩ := List.exists_cons_of_ne_nil hne
  have heq := runWorkers_eq H info root first rest sched hroot hc
  have hset := task_settled H info (H.NewSpecIndex info.RootNode) root hroot
  have hkeep := task_keeps H info (H.NewSpecIndex info.RootNode) root hroot
  have hmem : ∀ w ∈ spawn H, w.task ∈ extractionFuncs H ∧ w.phase = Phase.start := by
    intro w hw
    simp only [spawn, List.mem_map] at hw
    obtain ⟨f, hf, hwf⟩ := hw
    subst hwf
    exact ⟨hf, rfl⟩
  have hin : ∀ f ∈ extractionFuncs H,
      ({ task := f, phase := Phase.start } : Worker M) ∈ spawn H := by
    intro f hf
    exact List.mem_map.mpr ⟨f, hf, rfl⟩
  obtain ⟨s, hs⟩ := wgWait_returns info (H.NewSpecIndex info.RootNode) 21 (spawn H) sched
    { doc := { Document.zero M with
                Version := { Value := info.Version, ValueNode := info.RootNode }
                Index := some (H.NewSpecIndex info.RootNode)
                Extensions := some (H.ExtractExtensions first) }
      ers := [], raced := false, ran := [], done := [] }
    (fun w hw d => (hset w.task (hmem w hw).1 d).elim fun d' h => ⟨_, h⟩)
    (by simp [spawn, extractionFuncs, Phase.stepsLeft])
  obtain ⟨_, hB, hC, hD, hE⟩ := wgWait_RunInvariant info (H.NewSpecIndex info.RootNode)
    (extractionFuncs H) hset 21 (spawn H) sched _ s (RunInvariant_spawn H info _ _) hs
  have hdoc : ∀ (P : Document M → Prop),
      (∀ f ∈ extractionFuncs H, ∀ d d' e,
        f info d (H.NewSpecIndex info.RootNode) = .ok (d', e) → P d → P d') →
      (P { Document.zero M with
            Version := { Value := info.Version, ValueNode := info.RootNode }
            Index := some (H.NewSpecIndex info.RootNode)
            Extensions := some (H.ExtractExtensions first) } ∨
        ∃ f ∈ extractionFuncs H, ∀ d d' e,
          f info d (H.NewSpecIndex info.RootNode) = .ok (d', e) → P d') →
      P s.doc := by
    intro P hk hst
    refine wgWait_establishes info (H.NewSpecIndex info.RootNode) P 21 (spawn H) sched _ s
      (fun w hw => hk w.task (hmem w hw).1) ?_ hs
    rcases hst with h | ⟨f, hf, hest⟩
    · exact Or.inl h
    · exact Or.inr ⟨_, hin f hf, rfl, hest⟩
  refine ⟨s, heq ▸ hs, by simpa using hC, by simpa using hB, ?_, hE, ?_, ?_, ?_, ?_, ?_, ?_, ?_⟩
  · intro hr
    exact (hD hr).2.2
  · refine hdoc (fun d => d.Version = _) ?_ (Or.inl rfl)
    intro f hf d d' e hfd hP
    rw [(hkeep f hf d d' e hfd).1]
    exact hP
  · refine hdoc (fun d => d.Index = _) ?_ (Or.inl rfl)
    intro f hf d d' e hfd hP
    rw [(hkeep f hf d d' e hfd).2.1]
    exact hP
  · refine hdoc (fun d => d.Extensions = _) ?_ (Or.inl (by simp [hc]))
    intro f hf d d' e hfd hP
    rw [(hkeep f hf d d' e hfd).2.2.1]
    exact hP
  · intro kn ln vn hfind hnil
    have hest := extractPaths_populates H info _ root hroot kn ln vn hfind hnil
    refine hdoc (fun d => d.Paths = _) ?_ (Or.inr ⟨extractPaths H, by simp [extractionFuncs], hest⟩)
    intro f hf d d' e hfd hP
    rcases (hkeep f hf d d' e hfd).2.2.2.1 with h | h
    · subst h
      exact hest d d' e hfd
    · simpa [h] using hP
  · intro kn ln vn hfind hnil
    have hest := extractComponents_populates H info _ root hroot kn ln vn hfind hnil
    refine hdoc (fun d => d.Components = _) ?_
      (Or.inr ⟨extractComponents H, by simp [extractionFuncs], hest⟩)
    intro f hf d d' e hfd hP
    rcases (hkeep f hf d d' e hfd).2.2.2.2.1 with h | h
    · subst h
      exact hest d d' e hfd
    · simpa [h] using hP
  · intro kn ln vn hfind harr hpass
    have hent := extractServers_entries H info (H.NewSpecIndex info.RootNode) root hroot
      kn ln vn hfind harr hpass
    have hest : ∀ d d' e, extractServers H info d (H.NewSpecIndex info.RootNode) =
        .ok (d', e) → d'.Servers =
          { Value := (vn.Content.filter H.IsNodeMap).map fun c =>
              { Value := some (H.BuildServer (H.BuildModelServer c H.zeroServer).1 c
                  (H.NewSpecIndex info.RootNode)).1,
                ValueNode := some c }
            ValueNode := some vn
            KeyNode := ln } := by
      intro d d' e hfd
      rw [hent d] at hfd
      simp only [Except.ok.injEq, Prod.mk.injEq] at hfd
      rw [← hfd.1]
    refine hdoc (fun d => d.Servers = _) ?_
      (Or.inr ⟨extractServers H, by simp [extractionFuncs], hest⟩)
    intro f hf d d' e hfd hP
    rcases (hkeep f hf d d' e hfd).2.2.2.2.2.1 with h | h
    · subst h
      exact hest d d' e hfd
    · simpa [h] using hP
  · intro kn ln vn hfind harr hpass
    have hent := extractTags_entries H info (H.NewSpecIndex info.RootNode) root hroot
      kn ln vn hfind harr hpass
    have hest : ∀ d d' e, extractTags H info d (H.NewSpecIndex info.RootNode) =
        .ok (d', e) → d'.Tags =
          { Value := (vn.Content.filter H.IsNodeMap).map fun c =>
              { Value := some (H.BuildTag (H.BuildModelTag c H.zeroTag).1 c
                  (H.NewSpecIndex info.RootNode)).1,
                ValueNode := some c }
            ValueNode := some vn
            KeyNode := ln } := by
      intro d d' e hfd
      rw [hent d] at hfd
      simp only [Except.ok.injEq, Prod.mk.injEq] at hfd
      rw [← hfd.1]
    refine hdoc (fun d => d.Tags = _) ?_
      (Or.inr ⟨extractTags H, by simp [extractionFuncs], hest⟩)
    intro f hf d d' e hfd hP
    rcases (hkeep f hf d d' e hfd).2.2.2.2.2.2 with h | h
    · subst h
      exact hest d d' e hfd
    · simpa [h] using hP

/-- C3, evaluated: on the root `rootInfoDangling` phase 1 of the `info` section
succeeds and its `Build` returns an error, yet `CreateDocument` returns an empty
error slice while the section is attached; the same happens for the `components`
section of `rootComponentsDangling`. No task returns an error in these runs, so
no goroutine appends. -/
theorem build_error_of_info_and_components_is_dropped :
    (Examples.H0.BuildModelInfo Examples.infoDanglingNode Examples.H0.zeroInfo).2 = none ∧
    (Examples.H0.BuildInfo
        (Examples.H0.BuildModelInfo Examples.infoDanglingNode Examples.H0.zeroInfo).1
        Examples.infoDanglingNode
        (Examples.H0.NewSpecIndex Examples.infoInfoDangling.RootNode)).2 =
      some "info: reference cannot be found" ∧
    errorsOf (CreateDocument Examples.H0 Examples.infoInfoDangling [] none) = some [] ∧
    (documentOf (CreateDocument Examples.H0 Examples.infoInfoDangling [] none)).map
        (fun d => d.Info.Value) = some (some "info built") ∧
    errorsOf (CreateDocument Examples.H0 Examples.infoComponentsDangling [] none) = some [] ∧
    (documentOf (CreateDocument Examples.H0 Examples.infoComponentsDangling [] none)).map
        (fun d => d.Components.Value) = some (some "components built") ∧
    appendsOverlap Examples.H0 Examples.infoInfoDangling [] = false ∧
    appendsOverlap Examples.H0 Examples.infoComponentsDangling [] = false :=
  ⟨rfl, rfl, rfl, rfl, rfl, rfl, rfl, rfl⟩

/-- C4, as stated, fails: for the SpecInfo whose root node has no children
`CreateDocument` returns neither a document nor an error slice, it raises the
out-of-range condition at `info.RootNode.Content[0]`. And on the root
`rootTwoFailures`, which has a child, under a schedule in which the appends of the
two failing workers overlap, the race on the error slice can stop the program
with a fault or leave a nil entry in the slice. -/
theorem CreateDocument_raises_on_childless_root :
    CreateDocument Examples.H0 Examples.infoEmptyRoot [] none =
      .error Fatal.indexOutOfRange ∧
    appendsOverlap Examples.H0 Examples.infoTwoFailures [3, 5, 3, 5, 3, 4] = true ∧
    CreateDocument Examples.H0 Examples.infoTwoFailures [3, 5, 3, 5, 3, 4]
      (some (.error Fatal.memoryFault)) = .error Fatal.memoryFault ∧
    errorsOf (CreateDocument Examples.H0 Examples.infoTwoFailures [3, 5, 3, 5, 3, 4]
      (some (.ok [some "paths: reference cannot be found", none]))) =
      some [some "paths: reference cannot be found", none] :=
  ⟨rfl, rfl, rfl, rfl⟩

/-- C4, amended: for every SpecInfo whose root node is not nil and has at least one
child, and in every run in which no two goroutines append to the error slice at
the same time, `CreateDocument` returns a document and an error slice and raises
no fatal condition. A run with at most one failing task is such a run. The
document holds the version with the root node, the index and the extensions of
the root's first child; the root itself is not inspected, and every entry of the
error slice is an error, not nil, that one of the seven tasks returned. This
holds for every behaviour of the callees, every schedule and whatever a race
would do. -/
theorem CreateDocument_returns_on_rooted_input (H : Helpers M) (info : SpecInfo) (root : Node)
    (sched : List Nat) (torn : Option (Except Fatal (List (Option Err))))
    (hroot : info.RootNode = some root) (hne : root.Content ≠ []) :
    (((extractionFuncs H).filterMap
        (taskError info (H.NewSpecIndex info.RootNode))).length ≤ 1 →
      appendsOverlap H info sched = false) ∧
    (appendsOverlap H info sched = false →
      ∃ doc errs,
        CreateDocument H info sched torn = .ok (doc, errs) ∧
        doc.Version = { Value := info.Version, ValueNode := info.RootNode } ∧
        doc.Index = some (H.NewSpecIndex info.RootNode) ∧
        doc.Extensions = root.Content.head?.map H.ExtractExtensions ∧
        ∀ x ∈ errs, ∃ f ∈ extractionFuncs H, ∃ e, x = some e ∧
          taskError info (H.NewSpecIndex info.RootNode) f = some e) := by
  obtain ⟨s, hs, _, hdone, hers, hone, hv, hi, hx, _⟩ :=
    runWorkers_facts H info root sched hroot hne
  have hover : appendsOverlap H info sched = s.raced := by simp [appendsOverlap, hs]
  refine ⟨fun hle => hover ▸ hone hle, ?_⟩
  intro hno
  have hr : s.raced = false := hover ▸ hno
  refine ⟨s.doc, s.ers, ?_, hv, hi, hx, ?_⟩
  · simp [CreateDocument, hs, hr, bind, Except.bind, pure, Except.pure]
  · intro x hxmem
    rw [hers hr] at hxmem
    simp only [errorsAlong, List.mem_map, List.mem_filterMap] at hxmem
    obtain ⟨e, ⟨f, hf, hfe⟩, hxe⟩ := hxmem
    exact ⟨f, hdone.subset hf, e, hxe.symm, hfe⟩

/-- C4 amended, at a concrete input: the root `rootServersBad` has one child and
one failing task; `CreateDocument` returns for it under an interleaving schedule,
whatever a race would do, with the version and the index set. -/
theorem CreateDocument_returns_on_rooted_input_witness :
    appendsOverlap Examples.H0 Examples.infoServersBad [1, 3, 1, 5, 1] = false ∧
    ∃ doc errs,
      CreateDocument Examples.H0 Examples.infoServersBad [1, 3, 1, 5, 1]
        (some (.error Fatal.memoryFault)) = .ok (doc, errs) ∧
      doc.Version = { Value := "3.0.1", ValueNode := some Examples.rootServersBad } ∧
      doc.Index = some (0 : Nat) := by
  obtain ⟨hone, hrun⟩ :=
    CreateDocument_returns_on_rooted_input Examples.H0 Examples.infoServersBad
      Examples.rootServersBad [1, 3, 1, 5, 1] (some (.error Fatal.memoryFault)) rfl
      (by simp [Examples.rootServersBad, Examples.document, Node.Content])
  have hno := hone (by decide)
  obtain ⟨doc, errs, hret, hv, hi, _, _⟩ := hrun hno
  exact ⟨hno, doc, errs, hret, hv, hi⟩

/-- C6: the entries of `Servers` and `Tags`. For every behaviour of the callees,
every schedule, whatever a race on the error slice would do, and every SpecInfo
whose root node is not nil and has a child, the goroutines build a document such
that: when the key lookup of `servers` returns the key node `ln` and the value
node `vn`, `vn` is a sequence node and phase 1 accepts each of its mapping
children, then `Servers.Value` is the list of the mapping children of `vn` in
source order, one entry per child, each entry holding the built server and that
child as its `ValueNode` (the other children are skipped), `Servers.ValueNode` is
`vn` and `Servers.KeyNode` is `ln`; and the same for `tags` and `Tags`.
`CreateDocument` returns this document, unless appends to the error slice
overlapped and the race stopped the program with a fault. -/
theorem servers_and_tags_hold_the_mapping_children (H : Helpers M) (info : SpecInfo)
    (root : Node) (sched : List Nat) (torn : Option (Except Fatal (List (Option Err))))
    (hroot : info.RootNode = some root) (hne : root.Content ≠ []) :
    ∃ doc,
      ((∃ errs, CreateDocument H info sched torn = .ok (doc, errs)) ∨
        (∃ f, appendsOverlap H info sched = true ∧ torn = some (.error f) ∧
          CreateDocument H info sched torn = .error f)) ∧
      (∀ kn ln vn, H.FindKeyNodeFull ServersLabel root.Content = (kn, ln, some vn) →
        H.IsNodeArray vn = true →
        (∀ c ∈ vn.Content, H.IsNodeMap c = true →
          (H.BuildModelServer c H.zeroServer).2 = none) →
        doc.Servers =
          { Value := (vn.Content.filter H.IsNodeMap).map fun c =>
              { Value := some (H.BuildServer (H.BuildModelServer c H.zeroServer).1 c
                  (H.NewSpecIndex info.RootNode)).1,
                ValueNode := some c }
            ValueNode := some vn
            KeyNode := ln }) ∧
      (∀ kn ln vn, H.FindKeyNodeFull TagsLabel root.Content = (kn, ln, some vn) →
        H.IsNodeArray vn = true →
        (∀ c ∈ vn.Content, H.IsNodeMap c = true →
          (H.BuildModelTag c H.zeroTag).2 = none) →
        doc.Tags =
          { Value := (vn.Content.filter H.IsNodeMap).map fun c =>
              { Value := some (H.BuildTag (H.BuildModelTag c H.zeroTag).1 c
                  (H.NewSpecIndex info.RootNode)).1,
                ValueNode := some c }
            ValueNode := some vn
            KeyNode := ln }) := by
  obtain ⟨s, hs, _, _, _, _, _, _, _, _, _, hsrv, htag⟩ :=
    runWorkers_facts H info root sched hroot hne
  refine ⟨s.doc, ?_, hsrv, htag⟩
  cases hr : s.raced with
  | false =>
    exact Or.inl ⟨s.ers, by simp [CreateDocument, hs, hr, bind, Except.bind, pure, Except.pure]⟩
  | true =>
    cases torn with
    | none =>
      exact Or.inl ⟨s.ers, by
        simp [CreateDocument, hs, hr, bind, Except.bind, pure, Except.pure]⟩
    | some t =>
      cases t with
      | ok ers =>
        exact Or.inl ⟨ers, by
          simp [CreateDocument, hs, hr, bind, Except.bind, pure, Except.pure]⟩
      | error f =>
        exact Or.inr ⟨f, by simp [appendsOverlap, hs, hr], rfl, by
          simp [CreateDocument, hs, hr, bind, Except.bind]⟩

/-- C6, at a concrete input: the `servers` sequence of `rootSequences` is a mapping,
a scalar and a mapping, its `tags` sequence a scalar and a mapping; the document
holds the two server mappings, in order, and the one tag mapping. -/
theorem servers_and_tags_hold_the_mapping_children_witness :
    ∃ doc errs,
      CreateDocument Examples.H0 Examples.infoSequences [6, 0, 3] none = .ok (doc, errs) ∧
      doc.Servers.Value.map (fun s => s.ValueNode) =
        [some Examples.serverA, some Examples.serverA] ∧
      doc.Servers.ValueNode = some Examples.serversMixedNode ∧
      doc.Servers.KeyNode = some (Examples.scalar "servers") ∧
      doc.Tags.Value.map (fun s => s.ValueNode) =
        [some (Examples.mapping [Examples.scalar "name", Examples.scalar "pet"])] ∧
      doc.Tags.ValueNode = some Examples.tagsMixedNode := by
  obtain ⟨doc, hret, hs, ht⟩ :=
    servers_and_tags_hold_the_mapping_children Examples.H0 Examples.infoSequences
      Examples.rootSequences [6, 0, 3] none rfl
      (by simp [Examples.rootSequences, Examples.document, Node.Content])
  have hs' := hs _ (some (Examples.scalar "servers")) Examples.serversMixedNode rfl rfl
    (by
      intro c hc _
      simp only [Examples.serversMixedNode, Examples.sequence, Node.Content, List.mem_cons,
        List.mem_singleton, List.not_mem_nil, or_false] at hc
      rcases hc with h | h | h <;> subst h <;> rfl)
  have ht' := ht _ (some (Examples.scalar "tags")) Examples.tagsMixedNode rfl rfl
    (by
      intro c hc _
      simp only [Examples.tagsMixedNode, Examples.sequence, Node.Content, List.mem_cons,
        List.mem_singleton, List.not_mem_nil, or_false] at hc
      rcases hc with h | h <;> subst h <;> rfl)
  rcases hret with ⟨errs, hok⟩ | ⟨f, _, htorn, _⟩
  · refine ⟨doc, errs, hok, ?_, ?_, ?_, ?_, ?_⟩
    · rw [hs']
      rfl
    · rw [hs']
    · rw [hs']
    · rw [ht']
      rfl
    · rw [ht']
  · cases htorn

end Low

namespace WhatChanged

variable {T : DiffTypes}

theorem mem_compareContactPart (E : Callees T) (l r : Info T) (changes : List (Change T))
    (c : Change T) (h : c ∈ (compareContactPart E l r changes).2) :
    c ∈ changes ∨ c.Breaking = false := by
  unfold compareContactPart at h
  split at h
  · exact Or.inl h
  · simp only [CreateChange, List.mem_append, List.mem_singleton] at h
    rcases h with h | h
    · exact Or.inl h
    · exact Or.inr (by rw [h])
  · simp only [CreateChange, List.mem_append, List.mem_singleton] at h
    rcases h with h | h
    · exact Or.inl h
    · exact Or.inr (by rw [h])
  · exact Or.inl h

theorem mem_compareLicensePart (E : Callees T) (l r : Info T) (changes : List (Change T))
    (c : Change T) (h : c ∈ (compareLicensePart E l r changes).2) :
    c ∈ changes ∨ c.Breaking = false := by
  unfold compareLicensePart at h
  split at h
  · exact Or.inl h
  · simp only [CreateChange, List.mem_append, List.mem_singleton] at h
    rcases h with h | h
    · exact Or.inl h
    · exact Or.inr (by rw [h])
  · simp only [CreateChange, List.mem_append, List.mem_singleton] at h
    rcases h with h | h
    · exact Or.inl h
    · exact Or.inr (by rw [h])
  · exact Or.inl h

/-- C8: no change of an Info object is breaking. `TotalBreakingChanges` is 0 for
every `InfoChanges` value, whatever its nested change sets are; the property
checks `CompareInfo` hands to `CheckProperties` are those of title, description,
termsOfService and version, each with `Breaking` false; every change in the
slice `CompareInfo` collects is one that `CheckProperties` recorded or is flagged
non-breaking (the contact and license added or removed changes); and when
`CheckProperties` gives each change it records the flag of one of the checks,
every change of the collected slice, and so of the result, is flagged
non-breaking. -/
theorem info_changes_are_never_breaking (E : Callees T) (l r : Info T) :
    (∀ i : InfoChanges T, i.TotalBreakingChanges = 0) ∧
    (infoProps l r).map (fun p => p.Label) =
      [TitleLabel, DescriptionLabel, TermsOfServiceLabel, VersionLabel] ∧
    (∀ p ∈ infoProps l r, p.Breaking = false) ∧
    (∀ c ∈ (collectInfoChanges E l r).Changes,
      c ∈ E.CheckProperties (infoProps l r) ∨ c.Breaking = false) ∧
    ((∀ ps c, c ∈ E.CheckProperties ps → ∃ p ∈ ps, c.Breaking = p.Breaking) →
      (∀ c ∈ (collectInfoChanges E l r).Changes, c.Breaking = false) ∧
      ∀ i, CompareInfo E l r = some i → ∀ c ∈ i.Changes, c.Breaking = false) := by
  have hprops : ∀ p ∈ infoProps l r, p.Breaking = false := by
    intro p hp
    simp only [infoProps, List.mem_cons, List.mem_singleton, List.not_mem_nil, or_false] at hp
    rcases hp with h | h | h | h <;> rw [h]
  have hmem : ∀ c ∈ (collectInfoChanges E l r).Changes,
      c ∈ E.CheckProperties (infoProps l r) ∨ c.Breaking = false := by
    intro c hcmem
    simp only [collectInfoChanges] at hcmem
    rcases mem_compareLicensePart E l r _ c hcmem with h | h
    · exact mem_compareContactPart E l r _ c h
    · exact Or.inr h
  have hall : (∀ ps c, c ∈ E.CheckProperties ps → ∃ p ∈ ps, c.Breaking = p.Breaking) →
      ∀ c ∈ (collectInfoChanges E l r).Changes, c.Breaking = false := by
    intro hcp c hcmem
    rcases hmem c hcmem with h | h
    · obtain ⟨p, hp, hpc⟩ := hcp _ c h
      rw [hpc]
      exact hprops p hp
    · exact h
  refine ⟨fun _ => rfl, rfl, hprops, hmem, fun hcp => ⟨hall hcp, ?_⟩⟩
  intro i hi c hcmem
  unfold CompareInfo at hi
  simp only at hi
  split at hi
  · simp at hi
  · simp only [Option.some.injEq] at hi
    subst hi
    exact hall hcp c hcmem

/-- C8, at a concrete input: the example `CheckProperties` passes the flag of the
check on, and the one change between `infoPlain` and `infoRetitled`, a modified
title, is flagged non-breaking. -/
theorem info_changes_are_never_breaking_witness :
    (CompareInfo Examples.E0 Examples.infoPlain Examples.infoRetitled).map
        (fun i => i.Changes.map fun c => (c.ChangeType, c.Property, c.Breaking)) =
      some [(ChangeType.Modified, "title", false)] ∧
    ∀ i, CompareInfo Examples.E0 Examples.infoPlain Examples.infoRetitled = some i →
      ∀ c ∈ i.Changes, c.Breaking = false :=
  ⟨rfl,
    ((info_changes_are_never_breaking Examples.E0 Examples.infoPlain
      Examples.infoRetitled).2.2.2.2 (by
        intro ps c hc
        simp only [Examples.E0, List.mem_flatMap] at hc
        obtain ⟨p, hp, hcp⟩ := hc
        refine ⟨p, hp, ?_⟩
        unfold Examples.checkProperty at hcp
        simp only [CreateChange, List.nil_append] at hcp
        split at hcp
        · simp only [List.mem_singleton] at hcp
          rw [hcp]
        · split at hcp
          · simp only [List.mem_singleton] at hcp
            rw [hcp]
          · split at hcp
            · simp only [List.mem_singleton] at hcp
              rw [hcp]
            · simp at hcp)).2⟩

/-- C10, evaluated: with a license on the left (`infoWithLicense`) and none on the
right (`infoPlain`), `CompareInfo` records one `ObjectRemoved` change labelled
`license` whose left node is the left value node and whose right node and new
object are nil, but whose original object is the nil license pointer of the
right side, not the left license; the contact branch on the matching input
records the left contact as the original object. -/
theorem removed_license_loses_its_original_object :
    (CompareInfo Examples.E0 Examples.infoWithLicense Examples.infoPlain).map
        (fun i => i.Changes) =
      some [{ ChangeType := ChangeType.ObjectRemoved, Property := "license",
              LeftNode := some Examples.licenseNode, RightNode := none, Breaking := false,
              OriginalObject := Obj.license none, NewObject := Obj.nil }] ∧
    (Obj.license none : Obj Examples.T0) ≠
      Obj.license Examples.infoWithLicense.License.Value ∧
    (CompareInfo Examples.E0 Examples.infoWithContact Examples.infoPlain).map
        (fun i => i.Changes) =
      some [{ ChangeType := ChangeType.ObjectRemoved, Property := "contact",
              LeftNode := some Examples.contactNode, RightNode := none, Breaking := false,
              OriginalObject := Obj.contact Examples.infoWithContact.Contact.Value,
              NewObject := Obj.nil }] := by
  refine ⟨rfl, ?_, rfl⟩
  intro h
  injection h with h'
  exact absurd h' (by simp [Examples.infoWithLicense])

end WhatChanged

end LibOpenAPI
